import Mathlib

/-!
RTSP message codec (handlers/rtsp/parser.go).

A shallow embedding of the four entry points of the codec, `readRequest`,
`readResponse`, `writeRequest` and `writeResponse`, together with the pieces of
the Go standard library they call (`bufio.Reader.ReadString`, `strings.Trim`,
`strings.Split`, `strings.TrimSpace`, `strconv.Atoi`, `make`, `io.ReadFull`).

Conventions of the embedding:

* a Go `string` / `[]byte` is a `List Byte`, a byte being a natural number below 256;
* an `io.Reader` is a `Stream`: the bytes it delivers, and the condition it reports
  once they are used up (`io.EOF` or another error);
* a Go result pair `(*T, error)` is `Outcome.ret val err`; a run-time panic is the
  separate outcome `Outcome.panic`;
* a Go `map[string]string` is an association list; `range` visits it in the order of
  the list, and statements about the writers hold for every list, hence every order;
* the Method and Status vocabularies are declared outside parser.go; the codec is
  parameterised by them (`Vocab`).
-/

namespace Rtsp

/-! ## Bytes and strings -/

/-- A byte of a Go string or byte slice. -/
abbrev Byte := Nat

/-- The bytes of an ASCII literal. -/
def ascii (s : String) : List Byte := s.toList.map Char.toNat

/-- Line feed. -/
def LF : Byte := 10
/-- Carriage return. -/
def CR : Byte := 13
/-- Space. -/
def SP : Byte := 32
/-- Colon. -/
def COLON : Byte := 58

/-- Go `strings.Trim(s, cutset)` for a cutset of ASCII bytes: every leading and every
trailing byte of `s` that belongs to `cutset` is removed. -/
def Trim (s : List Byte) (cutset : List Byte) : List Byte :=
  ((s.dropWhile (fun b => decide (b ∈ cutset))).reverse.dropWhile
    (fun b => decide (b ∈ cutset))).reverse

/-- Go `strings.Split(s, sep)` for a one-byte separator: the fields between the
occurrences of `sep`; a string without `sep` (the empty one included) is one field. -/
def Split (s : List Byte) (sep : Byte) : List (List Byte) :=
  match s with
  | [] => [[]]
  | b :: bs =>
    if b = sep then [] :: Split bs sep
    else
      match Split bs sep with
      | [] => [[b]]
      | f :: fs => (b :: f) :: fs

/-- The table `asciiSpace` of package strings: tab, line feed, vertical tab, form feed,
carriage return and space. -/
def asciiSpace (b : Byte) : Bool :=
  b == 9 || b == 10 || b == 11 || b == 12 || b == 13 || b == 32

/-- The UTF-8 encodings of the runes from U+0080 on for which `unicode.IsSpace` holds:
U+0085, U+00A0, U+1680, U+2000 to U+200A, U+2028, U+2029, U+202F, U+205F, U+3000. -/
def wideSpaces : List (List Byte) :=
  [[0xC2, 0x85], [0xC2, 0xA0], [0xE1, 0x9A, 0x80],
   [0xE2, 0x80, 0x80], [0xE2, 0x80, 0x81], [0xE2, 0x80, 0x82], [0xE2, 0x80, 0x83],
   [0xE2, 0x80, 0x84], [0xE2, 0x80, 0x85], [0xE2, 0x80, 0x86], [0xE2, 0x80, 0x87],
   [0xE2, 0x80, 0x88], [0xE2, 0x80, 0x89], [0xE2, 0x80, 0x8A],
   [0xE2, 0x80, 0xA8], [0xE2, 0x80, 0xA9], [0xE2, 0x80, 0xAF],
   [0xE2, 0x81, 0x9F], [0xE3, 0x80, 0x80]]

/-- Width in bytes of the first rune of `s` when that rune is white space, else 0.
A white-space rune is decoded exactly from one of the byte sequences above (UTF-8
decoding is injective and rejects over-long forms), and an undecodable byte is the
rune U+FFFD, which is not white space. -/
def spaceWidth (s : List Byte) : Nat :=
  match s with
  | [] => 0
  | b :: _ =>
    if asciiSpace b then 1
    else
      match wideSpaces.find? (fun w => w.isPrefixOf s) with
      | some w => w.length
      | none => 0

/-- Width in bytes of the last rune of `s` when that rune is white space, else 0. -/
def spaceWidthEnd (s : List Byte) : Nat :=
  match s.reverse with
  | [] => 0
  | b :: _ =>
    if asciiSpace b then 1
    else
      match wideSpaces.find? (fun w => w.reverse.isPrefixOf s.reverse) with
      | some w => w.length
      | none => 0

/-- Removal of leading white-space runes, at most `n` of them. -/
def trimLeftSpace : Nat → List Byte → List Byte
  | 0, s => s
  | n + 1, s =>
    match spaceWidth s with
    | 0 => s
    | w => trimLeftSpace n (s.drop w)

/-- Removal of trailing white-space runes, at most `n` of them. -/
def trimRightSpace : Nat → List Byte → List Byte
  | 0, s => s
  | n + 1, s =>
    match spaceWidthEnd s with
    | 0 => s
    | w => trimRightSpace n (s.take (s.length - w))

/-- Go `strings.TrimSpace(s)`: all leading and trailing white space removed, as defined
by Unicode. A string of `n` bytes has at most `n` runes to remove on either side. -/
def TrimSpace (s : List Byte) : List Byte :=
  let t := trimLeftSpace s.length s
  trimRightSpace t.length t

/-- Go `strings.ToUpper` on ASCII text: the letters a to z become A to Z. (Bytes from
0x80 on are left as they are; the method tokens it is applied to are ASCII.) -/
def ToUpper (s : List Byte) : List Byte :=
  s.map (fun b => if 97 ≤ b ∧ b ≤ 122 then b - 32 else b)

/-! ## Decimal conversion -/

/-- Decimal digits of `n`, most significant first, put in front of `acc`; `fuel` bounds
the number of digits. -/
def digitsAux : Nat → Nat → List Byte → List Byte
  | 0, _, acc => acc
  | fuel + 1, n, acc =>
    if n < 10 then (48 + n) :: acc
    else digitsAux fuel (n / 10) ((48 + n % 10) :: acc)

/-- Go `strconv.Itoa(n)` for `n ≥ 0`: the decimal numeral without leading zeros. -/
def Itoa (n : Nat) : List Byte := digitsAux (n + 1) n []

/-- The verb `%d` of package fmt on an integer: the decimal numeral, with a minus sign
in front of a negative number. -/
def fmtInt (i : Int) : List Byte :=
  if i < 0 then 45 :: Itoa i.natAbs else Itoa i.natAbs

/-- Result of `strconv.Atoi`: the parsed number, or one of its two errors. On
`ErrRange` the function still returns a number, the nearest bound of `int`. -/
inductive AtoiResult
  | ok (n : Int)
  | errSyntax
  | errRange (clamped : Int)
  deriving DecidableEq, Repr

/-- The number `strconv.Atoi` hands back: the value parsed, 0 on a syntax error, the
clamped bound on a range error. -/
def AtoiResult.value : AtoiResult → Int
  | .ok n => n
  | .errSyntax => 0
  | .errRange c => c

/-- Whether `strconv.Atoi` returned a non-nil error. -/
def AtoiResult.isErr : AtoiResult → Bool
  | .ok _ => false
  | _ => true

/-- Outcome of `strconv.ParseUint(s, 10, 64)` on the digits after an optional sign. -/
inductive UintResult
  | ok (n : Nat)
  | errSyntax
  | errRange
  deriving DecidableEq, Repr

/-- The digit loop of `strconv.ParseUint` in base 10 with 64 bits: a byte that is not a
decimal digit is a syntax error; the loop stops with a range error as soon as the
number read so far exceeds 2^64 - 1, without looking at the bytes that follow. -/
def parseUintAux : List Byte → Nat → UintResult
  | [], n => .ok n
  | c :: cs, n =>
    if 48 ≤ c ∧ c ≤ 57 then
      if n * 10 + (c - 48) > 2 ^ 64 - 1 then .errRange
      else parseUintAux cs (n * 10 + (c - 48))
    else .errSyntax

/-- Go `strconv.Atoi(s)` with a 64-bit `int`: an optional sign `+` or `-`, then one or
more decimal digits. (For fewer than 19 bytes the function takes a fast path, which
computes the same result as `ParseInt(s, 10, 0)` modelled here.) -/
def Atoi (s : List Byte) : AtoiResult :=
  match s with
  | [] => .errSyntax
  | c :: cs =>
    let neg := decide (c = 45)
    let digits := if c = 43 ∨ c = 45 then cs else c :: cs
    match digits with
    | [] => .errSyntax
    | _ :: _ =>
      match parseUintAux digits 0 with
      | .errSyntax => .errSyntax
      | .errRange => if neg then .errRange (-(2 ^ 63 : Int)) else .errRange (2 ^ 63 - 1 : Int)
      | .ok un =>
        if neg then
          if un > 2 ^ 63 then .errRange (-(2 ^ 63 : Int)) else .ok (-(un : Int))
        else
          if un ≥ 2 ^ 63 then .errRange (2 ^ 63 - 1 : Int) else .ok (un : Int)

/-! ## Streams, errors and results -/

/-- What the underlying `io.Reader` reports once its bytes are used up: `io.EOF`, or an
error of another kind. -/
inductive StreamEnd
  | eof
  | fault
  deriving DecidableEq, Repr

/-- An `io.Reader` seen through `bufio.NewReader`: the bytes it delivers, then its end. -/
structure Stream where
  data : List Byte
  tail : StreamEnd
  deriving DecidableEq, Repr

/-- A stream that delivers `bs` and then reports end-of-stream. -/
def Stream.ofBytes (bs : List Byte) : Stream := { data := bs, tail := .eof }

/-- The Go `error` values the codec returns, one constructor per place they arise. -/
inductive Err
  /-- The sentinel `io.EOF`. -/
  | EOF
  /-- The sentinel `io.ErrUnexpectedEOF`. -/
  | ErrUnexpectedEOF
  /-- An error of the underlying reader other than end-of-stream. -/
  | readFault
  /-- Text "improperly formatted request line: %s". -/
  | requestLine (line : List Byte)
  /-- Text "method does exist in RTSP protocol: %s". -/
  | method (token : List Byte)
  /-- Text "improper header: %s". -/
  | header (line : List Byte)
  /-- Text "error reading full body: %w". -/
  | fullBody (cause : Err)
  /-- Text "improperly formatted status line: %s". -/
  | statusLine (line : List Byte)
  /-- Text "status not a valid integer: %s". -/
  | statusInteger (token : List Byte)
  /-- Text "status does exist in RTSP protocol: %d". -/
  | status (code : Int)
  /-- Text "unable to parse header 'Content-Length' (string: %s): %w". -/
  | contentLength (value : List Byte)
  /-- Text "error reading body into buffer: %w". -/
  | bodyBuffer (cause : Err)
  deriving DecidableEq, Repr

/-- The error a read returns when the stream has no more bytes. -/
def endErr : StreamEnd → Err
  | .eof => .EOF
  | .fault => .readFault

/-- Result of a Go function of type `(*T, error)`: the pair it returns (`none` is
`nil`), or a run-time panic. -/
inductive Outcome (α : Type)
  | ret (val : Option α) (err : Option Err)
  | panic
  deriving DecidableEq, Repr

/-- Go `bufio.Reader.ReadString(LF)` on the bytes still to come: the line up to and
including the first line feed, and the bytes after it; `none` when no line feed comes
before the end of the stream (the call then returns the error of the stream's end). -/
def ReadString : List Byte → Option (List Byte × List Byte)
  | [] => none
  | b :: bs =>
    if b = LF then some ([b], bs)
    else
      match ReadString bs with
      | none => none
      | some (line, rest) => some (b :: line, rest)

/-- Largest size the Go runtime allocates on a 64-bit platform (`maxAlloc`, 2^48). -/
def maxAlloc : Nat := 2 ^ 48

/-- Go `make([]byte, n)`: a slice of `n` zero bytes; a run-time panic (`none`) when `n`
is negative or exceeds what the runtime can allocate. -/
def makeSlice (n : Int) : Option (List Byte) :=
  if 0 ≤ n ∧ n ≤ (maxAlloc : Int) then some (List.replicate n.toNat 0) else none

/-- Go `io.ReadFull(buf, b)` where `data` are the bytes still to come: the contents of
`b` afterwards and the error returned. With enough bytes `b` is filled and the error is
nil; otherwise the bytes there are stand in front, the rest of `b` is unchanged, and the
error is `io.EOF` when nothing was read at the end of the stream, `io.ErrUnexpectedEOF`
when the stream ended part-way, or the reader's own error. -/
def ReadFull (data : List Byte) (tail : StreamEnd) (b : List Byte) :
    List Byte × Option Err :=
  if b.length ≤ data.length then (data.take b.length, none)
  else
    (data ++ b.drop data.length,
      some (match tail with
        | .fault => Err.readFault
        | .eof => if data = [] then Err.EOF else Err.ErrUnexpectedEOF))

/-! ## Messages -/

/-- A Go `map[string]string`. -/
abbrev Headers := List (List Byte × List Byte)

/-- The lookup `m[k]` with its presence flag. -/
def Headers.get : Headers → List Byte → Option (List Byte)
  | [], _ => none
  | (k', v') :: m, k => if k' = k then some v' else Headers.get m k

/-- The assignment `m[k] = v`: the entry for `k` is replaced, or added when absent. -/
def Headers.set : Headers → List Byte → List Byte → Headers
  | [], k, v => [(k, v)]
  | (k', v') :: m, k, v => if k' = k then (k, v) :: m else (k', v') :: Headers.set m k v

/-- The Method and Status vocabularies, declared outside parser.go: `getMethod` and
`Method.String` for a type `M` of methods, `getStatus` and `Status.String` for a type
`S` of statuses, and the integer a status is (it is printed with `%d`). A lookup that
returns an error is `none`. -/
structure Vocab (M S : Type) where
  getMethod : List Byte → Option M
  methodString : M → List Byte
  getStatus : Int → Option S
  statusCode : S → Int
  statusString : S → List Byte

/-- The struct `Request`. A nil body and an empty body are both `[]`. -/
structure Request (M : Type) where
  Method : M
  RequestURI : List Byte
  protocol : List Byte
  Headers : Headers
  Body : List Byte
  deriving DecidableEq, Repr

/-- The struct `Response`. A nil body and an empty body are both `[]`. -/
structure Response (S : Type) where
  protocol : List Byte
  Status : S
  Headers : Headers
  Body : List Byte
  deriving DecidableEq, Repr

/-! ## Readers -/

/-- The key `"Content-Length"`. -/
def contentLengthKey : List Byte := ascii "Content-Length"

/-- What one turn of the header loop does with the line it has read. -/
inductive HeaderStep
  /-- The line is blank after trimming: `break`. -/
  | stop
  /-- The line has no colon: `return nil, error`. -/
  | fail (e : Err)
  /-- The line is stored in the map and the loop goes on. -/
  | next (headers : Headers)
  deriving DecidableEq, Repr

/-- Body of the header loop after `ReadString`, for the line `line` (line feed
included), with `cutset` the set the reader trims by: "\r\n" in readRequest, "\n" in
readResponse. -/
def headerStep (cutset : List Byte) (headers : Headers) (line : List Byte) : HeaderStep :=
  let headerField := Trim line cutset
  if Trim headerField cutset = [] then .stop
  else
    let headerParts := Split headerField COLON
    if headerParts.length < 2 then .fail (.header headerField)
    else
      .next (headers.set (TrimSpace (headerParts.getD 0 [])) (TrimSpace (headerParts.getD 1 [])))

/-- Result of the header loop: the map and the bytes after the blank line, or the
error the function returns. -/
inductive HeaderLoop
  | done (headers : Headers) (rest : List Byte)
  | fail (e : Err)
  deriving DecidableEq, Repr

/-- The loop `for { headerField, err := buf.ReadString(LF) ... }` of both readers.
`pending` holds, last byte first, the bytes of the current line read so far; at a line
feed the line is complete and `headerStep` runs on it (see `headerLoop_line`). The
stream ending before the blank line gives the error of its end. -/
def headerLoop (cutset : List Byte) (tail : StreamEnd) :
    List Byte → Headers → List Byte → HeaderLoop
  | _, _, [] => .fail (endErr tail)
  | pending, headers, b :: bs =>
    if b = LF then
      match headerStep cutset headers (pending.reverse ++ [LF]) with
      | .stop => .done headers bs
      | .fail e => .fail e
      | .next headers' => headerLoop cutset tail [] headers' bs
    else headerLoop cutset tail (b :: pending) headers bs

/-- The function `readRequest` of parser.go. -/
def readRequest {M S : Type} (V : Vocab M S) (r : Stream) : Outcome (Request M) :=
  match ReadString r.data with
  | none => .ret none (some (endErr r.tail))
  | some (line, rest) =>
    let requestLine := Trim line [CR, LF]
    let requestLineParts := Split requestLine SP
    if requestLineParts.length ≠ 3 then .ret none (some (.requestLine requestLine))
    else
      match V.getMethod (requestLineParts.getD 0 []) with
      | none => .ret none (some (.method (requestLineParts.getD 0 [])))
      | some method =>
        match headerLoop [CR, LF] r.tail [] [] rest with
        | .fail e => .ret none (some e)
        | .done headers rest' =>
          let req : Request M :=
            { Method := method
              RequestURI := requestLineParts.getD 1 []
              protocol := requestLineParts.getD 2 []
              Headers := headers
              Body := [] }
          match headers.get contentLengthKey with
          | none => .ret (some req) none
          | some contentLength =>
            let length := (Atoi contentLength).value
            match makeSlice length with
            | none => .panic
            | some buffer =>
              match ReadFull rest' r.tail buffer with
              | (body, some e) =>
                if e ≠ Err.ErrUnexpectedEOF ∧ e ≠ Err.EOF then
                  .ret none (some (.fullBody e))
                else .ret (some { req with Body := body }) none
              | (body, none) => .ret (some { req with Body := body }) none

/-- The function `readResponse` of parser.go. -/
def readResponse {M S : Type} (V : Vocab M S) (r : Stream) : Outcome (Response S) :=
  match ReadString r.data with
  | none => .ret none (some (endErr r.tail))
  | some (line, rest) =>
    let statusLine := Trim line [LF]
    let statusLineParts := Split statusLine SP
    if statusLineParts.length ≠ 3 then .ret none (some (.statusLine statusLine))
    else
      match Atoi (statusLineParts.getD 1 []) with
      | .errSyntax => .ret none (some (.statusInteger (statusLineParts.getD 1 [])))
      | .errRange _ => .ret none (some (.statusInteger (statusLineParts.getD 1 [])))
      | .ok statusNum =>
        match V.getStatus statusNum with
        | none => .ret none (some (.status statusNum))
        | some status =>
          match headerLoop [LF] r.tail [] [] rest with
          | .fail e => .ret none (some e)
          | .done headers rest' =>
            let resp : Response S :=
              { protocol := statusLineParts.getD 0 []
                Status := status
                Headers := headers
                Body := [] }
            match headers.get contentLengthKey with
            | none => .ret (some resp) none
            | some contentLength =>
              match Atoi contentLength with
              | .errSyntax => .ret none (some (.contentLength contentLength))
              | .errRange _ => .ret none (some (.contentLength contentLength))
              | .ok length =>
                match makeSlice length with
                | none => .panic
                | some buffer =>
                  match ReadFull rest' r.tail buffer with
                  | (body, some e) =>
                    if e = Err.EOF ∨ e = Err.ErrUnexpectedEOF then
                      .ret (some { resp with Body := body }) (some (.bodyBuffer e))
                    else .ret (some { resp with Body := body }) none
                  | (body, none) => .ret (some { resp with Body := body }) none

/-! ## Writers -/

/-- One header written as `fmt.Sprintf("%s: %s\n", header, value)`. -/
def headerLine (h : List Byte × List Byte) : List Byte :=
  h.1 ++ [COLON, SP] ++ h.2 ++ [LF]

/-- The loop `for header, value := range m.Headers { buffer.WriteString(...) }`. -/
def headerBlock (hs : Headers) : List Byte :=
  (hs.map headerLine).flatten

/-- The line added for a body of `n > 0` bytes: "Content-Length: n". -/
def contentLengthLine (n : Nat) : List Byte :=
  contentLengthKey ++ [COLON, SP] ++ Itoa n ++ [LF]

/-- The function `writeRequest` of parser.go: the bytes of the buffer handed to the
single call `w.Write`. -/
def writeRequest {M S : Type} (V : Vocab M S) (request : Request M) : List Byte :=
  ToUpper (V.methodString request.Method) ++ [SP] ++ request.RequestURI ++ [SP]
      ++ request.protocol ++ [LF]
    ++ headerBlock request.Headers
    ++ (if request.Body.length > 0 then contentLengthLine request.Body.length else [])
    ++ [LF]
    ++ (if request.Body.length > 0 then request.Body else [])

/-- The function `writeResponse` of parser.go: the bytes of the buffer handed to the
single call `w.Write`. -/
def writeResponse {M S : Type} (V : Vocab M S) (resp : Response S) : List Byte :=
  resp.protocol ++ [SP] ++ fmtInt (V.statusCode resp.Status) ++ [SP]
      ++ V.statusString resp.Status ++ [LF]
    ++ headerBlock resp.Headers
    ++ (if resp.Body.length > 0 then contentLengthLine resp.Body.length else [])
    ++ [LF]
    ++ (if resp.Body.length > 0 then resp.Body else [])

/-! ## A vocabulary for the examples -/

/-- Modelled from the spec: the Go declaration of the type `Method` is not among the
sources. The spec (section 3) lists these method tokens as members of the closed
enumeration. -/
inductive Method
  | OPTIONS | DESCRIBE | SETUP | PLAY | PAUSE | TEARDOWN
  | ANNOUNCE | RECORD | REDIRECT | GET_PARAMETER | SET_PARAMETER
  deriving DecidableEq, Repr

/-- Modelled from the spec: `Method.String` is not among the sources; per section 4.1
the vocabulary is a bijection between uppercase tokens and methods. -/
def Method.String : Method → List Byte
  | .OPTIONS => ascii "OPTIONS"
  | .DESCRIBE => ascii "DESCRIBE"
  | .SETUP => ascii "SETUP"
  | .PLAY => ascii "PLAY"
  | .PAUSE => ascii "PAUSE"
  | .TEARDOWN => ascii "TEARDOWN"
  | .ANNOUNCE => ascii "ANNOUNCE"
  | .RECORD => ascii "RECORD"
  | .REDIRECT => ascii "REDIRECT"
  | .GET_PARAMETER => ascii "GET_PARAMETER"
  | .SET_PARAMETER => ascii "SET_PARAMETER"

/-- Every method of the modelled vocabulary. -/
def Method.all : List Method :=
  [.OPTIONS, .DESCRIBE, .SETUP, .PLAY, .PAUSE, .TEARDOWN,
   .ANNOUNCE, .RECORD, .REDIRECT, .GET_PARAMETER, .SET_PARAMETER]

/-- Modelled from the spec: `getMethod` is not among the sources; per section 4.1 the
lookup is case-sensitive on the token as received and fails on an unknown token. -/
def getMethod (token : List Byte) : Option Method :=
  Method.all.find? (fun m => decide (m.String = token))

/-- Modelled from the spec: the Go declaration of the type `Status` is not among the
sources. The spec (section 3) names these three codes with their reason phrases. -/
inductive Status
  | OK | NotFound | ParameterNotUnderstood
  deriving DecidableEq, Repr

/-- The integer a status is. -/
def Status.code : Status → Int
  | .OK => 200
  | .NotFound => 404
  | .ParameterNotUnderstood => 451

/-- Modelled from the spec: `Status.String` is not among the sources; the canonical
reason phrases are those of section 3. -/
def Status.String : Status → List Byte
  | .OK => ascii "OK"
  | .NotFound => ascii "Not Found"
  | .ParameterNotUnderstood => ascii "Parameter Not Understood"

/-- Modelled from the spec: `getStatus` is not among the sources; per section 4.2 a code
outside the table fails. -/
def getStatus (code : Int) : Option Status :=
  [Status.OK, Status.NotFound, Status.ParameterNotUnderstood].find?
    (fun s => decide (s.code = code))

/-- The vocabulary assembled from the definitions above. -/
def specVocab : Vocab Method Status :=
  { getMethod := getMethod
    methodString := Method.String
    getStatus := getStatus
    statusCode := Status.code
    statusString := Status.String }

/-! ## Well-formed message heads -/

/-- The part of `readRequest` before the body step, as a function of its own: for a
stream whose request line and header block are well-formed, the Request as it stands
after `req.Headers = headers` (body still empty) and the bytes that follow the blank
line; `none` when `readRequest` returns an error before that point. -/
def requestHead {M S : Type} (V : Vocab M S) (r : Stream) : Option (Request M × List Byte) :=
  match ReadString r.data with
  | none => none
  | some (line, rest) =>
    let requestLineParts := Split (Trim line [CR, LF]) SP
    if requestLineParts.length ≠ 3 then none
    else
      match V.getMethod (requestLineParts.getD 0 []) with
      | none => none
      | some method =>
        match headerLoop [CR, LF] r.tail [] [] rest with
        | .fail _ => none
        | .done headers after =>
          some ({ Method := method
                  RequestURI := requestLineParts.getD 1 []
                  protocol := requestLineParts.getD 2 []
                  Headers := headers
                  Body := [] }, after)

/-- The part of `readResponse` before the body step: for a stream whose status line
and header block are well-formed, the Response as it stands after
`resp.Headers = headers` and the bytes that follow the blank line; `none` when
`readResponse` returns an error before that point. -/
def responseHead {M S : Type} (V : Vocab M S) (r : Stream) :
    Option (Response S × List Byte) :=
  match ReadString r.data with
  | none => none
  | some (line, rest) =>
    let statusLineParts := Split (Trim line [LF]) SP
    if statusLineParts.length ≠ 3 then none
    else
      match Atoi (statusLineParts.getD 1 []) with
      | .errSyntax => none
      | .errRange _ => none
      | .ok statusNum =>
        match V.getStatus statusNum with
        | none => none
        | some status =>
          match headerLoop [LF] r.tail [] [] rest with
          | .fail _ => none
          | .done headers after =>
            some ({ protocol := statusLineParts.getD 0 []
                    Status := status
                    Headers := headers
                    Body := [] }, after)

/-- The body step of `readRequest`, from the lookup of "Content-Length" on. -/
def requestBody {M : Type} (req : Request M) (after : List Byte) (tail : StreamEnd) :
    Outcome (Request M) :=
  match req.Headers.get contentLengthKey with
  | none => .ret (some req) none
  | some contentLength =>
    match makeSlice (Atoi contentLength).value with
    | none => .panic
    | some buffer =>
      match ReadFull after tail buffer with
      | (body, some e) =>
        if e ≠ Err.ErrUnexpectedEOF ∧ e ≠ Err.EOF then .ret none (some (.fullBody e))
        else .ret (some { req with Body := body }) none
      | (body, none) => .ret (some { req with Body := body }) none

/-- The body step of `readResponse`, from the lookup of "Content-Length" on. -/
def responseBody {S : Type} (resp : Response S) (after : List Byte) (tail : StreamEnd) :
    Outcome (Response S) :=
  match resp.Headers.get contentLengthKey with
  | none => .ret (some resp) none
  | some contentLength =>
    match Atoi contentLength with
    | .errSyntax => .ret none (some (.contentLength contentLength))
    | .errRange _ => .ret none (some (.contentLength contentLength))
    | .ok length =>
      match makeSlice length with
      | none => .panic
      | some buffer =>
        match ReadFull after tail buffer with
        | (body, some e) =>
          if e = Err.EOF ∨ e = Err.ErrUnexpectedEOF then
            .ret (some { resp with Body := body }) (some (.bodyBuffer e))
          else .ret (some { resp with Body := body }) none
        | (body, none) => .ret (some { resp with Body := body }) none

/-! ## Example inputs -/

/-- A request that declares 10 body bytes and supplies 3. -/
def truncatedRequest : List Byte :=
  ascii "OPTIONS rtsp://x RTSP/1.0\r\nContent-Length: 10\r\n\r\nabc"

/-- What `readRequest` returns for `truncatedRequest`. -/
def truncatedRequestResult : Request Method :=
  { Method := .OPTIONS
    RequestURI := ascii "rtsp://x"
    protocol := ascii "RTSP/1.0"
    Headers := [(ascii "Content-Length", ascii "10")]
    Body := [97, 98, 99, 0, 0, 0, 0, 0, 0, 0] }

/-- A request that declares 4 body bytes and supplies 2. -/
def shortRequest : List Byte :=
  ascii "PLAY rtsp://x RTSP/1.0\r\nCSeq: 7\r\nContent-Length: 4\r\n\r\nhi"

/-- Head of `shortRequest`. -/
def shortRequestHead : Request Method :=
  { Method := .PLAY
    RequestURI := ascii "rtsp://x"
    protocol := ascii "RTSP/1.0"
    Headers := [(ascii "CSeq", ascii "7"), (ascii "Content-Length", ascii "4")]
    Body := [] }

/-- A request whose Content-Length is negative. -/
def negativeLengthRequest : List Byte :=
  ascii "OPTIONS rtsp://x RTSP/1.0\r\nContent-Length: -1\r\n\r\n"

/-- A response whose Content-Length is negative. -/
def negativeLengthResponse : List Byte :=
  ascii "RTSP/1.0 200 OK\nContent-Length: -1\n\n"

/-- The response "RTSP/1.0 200 OK" with lines ended by carriage return and line feed. -/
def crlfResponse : List Byte := ascii "RTSP/1.0 200 OK\r\n\r\n"

/-- The response "RTSP/1.0 200 OK" with lines ended by line feed alone. -/
def lfResponse : List Byte := ascii "RTSP/1.0 200 OK\n\n"

/-- What `readResponse` returns for `lfResponse`. -/
def okResponse : Response Status :=
  { protocol := ascii "RTSP/1.0", Status := .OK, Headers := [], Body := [] }

/-- A request with the header line "Content-Base: rtsp://host/x". -/
def contentBaseRequest : List Byte :=
  ascii "DESCRIBE rtsp://host/x RTSP/1.0\r\nContent-Base: rtsp://host/x\r\n\r\n"

/-- What `readRequest` returns for `contentBaseRequest`. -/
def contentBaseRequestResult : Request Method :=
  { Method := .DESCRIBE
    RequestURI := ascii "rtsp://host/x"
    protocol := ascii "RTSP/1.0"
    Headers := [(ascii "Content-Base", ascii "rtsp")]
    Body := [] }

/-- A response with the header line "Content-Base: rtsp://host/x". -/
def contentBaseResponse : List Byte :=
  ascii "RTSP/1.0 200 OK\nContent-Base: rtsp://host/x\n\n"

/-- What `readResponse` returns for `contentBaseResponse`. -/
def contentBaseResponseResult : Response Status :=
  { protocol := ascii "RTSP/1.0"
    Status := .OK
    Headers := [(ascii "Content-Base", ascii "rtsp")]
    Body := [] }

/-- A response that declares 2^63 - 1 body bytes and supplies 3. -/
def hugeLengthResponse : List Byte :=
  ascii "RTSP/1.0 200 OK\nContent-Length: 9223372036854775807\n\nabc"

/-- A response that declares 5 body bytes and supplies 2. -/
def shortResponse : List Byte :=
  ascii "RTSP/1.0 200 OK\nCSeq: 3\nContent-Length: 5\n\nhi"

/-- Head of `shortResponse`. -/
def shortResponseHead : Response Status :=
  { protocol := ascii "RTSP/1.0"
    Status := .OK
    Headers := [(ascii "CSeq", ascii "3"), (ascii "Content-Length", ascii "5")]
    Body := [] }

/-- Request line and header block of a request that declares 2^63 - 1 body bytes. -/
def hugeLengthRequest : List Byte :=
  ascii "OPTIONS rtsp://x RTSP/1.0\r\nContent-Length: 9223372036854775807\r\n\r\n"

/-- Head of `hugeLengthRequest`. -/
def hugeLengthRequestHead : Request Method :=
  { Method := .OPTIONS
    RequestURI := ascii "rtsp://x"
    protocol := ascii "RTSP/1.0"
    Headers := [(ascii "Content-Length", ascii "9223372036854775807")]
    Body := [] }

/-- The request of the spec's body-exactness example, followed by two more bytes. -/
def helloRequest : List Byte :=
  ascii "OPTIONS rtsp://x RTSP/1.0\r\nContent-Length: 5\r\n\r\nhello!!"

/-- Head of `helloRequest`. -/
def helloRequestHead : Request Method :=
  { Method := .OPTIONS
    RequestURI := ascii "rtsp://x"
    protocol := ascii "RTSP/1.0"
    Headers := [(ascii "Content-Length", ascii "5")]
    Body := [] }

/-! ## Auxiliary notions for the proofs -/

/-- Value of a string of decimal digits read after the number `a`. -/
def decimalValue (a : Nat) (s : List Byte) : Nat :=
  s.foldl (fun v c => v * 10 + (c - 48)) a

/-- The decimal digits `0` to `9`. -/
def isDigit (c : Nat) : Prop := 48 ≤ c ∧ c ≤ 57

/-! ## Header lines of written bytes -/

/-- The header block of a written message, line by line: the lines (ended by line
feed) after the first line and before the first blank line. -/
def headerLinesOf (out : List Byte) : List (List Byte) :=
  ((Split out LF).drop 1).takeWhile (fun l => decide (l ≠ []))

/-- Whether a line is a Content-Length header line: it begins with "Content-Length:". -/
def isContentLengthLine (l : List Byte) : Bool :=
  (contentLengthKey ++ [COLON]).isPrefixOf l

/-- Whether the header block of a written message has a Content-Length line. -/
def hasContentLengthLine (out : List Byte) : Bool :=
  (headerLinesOf out).any isContentLengthLine

/-- A header of the mapping that cannot make a Content-Length line or break a line:
its name is not "Content-Length" and has no colon, name and value have no line feed. -/
def plainHeader (h : List Byte × List Byte) : Prop :=
  h.1 ≠ contentLengthKey ∧ COLON ∉ h.1 ∧ LF ∉ h.1 ∧ LF ∉ h.2

/-- A request with an empty body whose mapping carries a Content-Length entry. -/
def emptyBodyRequest : Request Method :=
  { Method := .OPTIONS
    RequestURI := ascii "rtsp://x"
    protocol := ascii "RTSP/1.0"
    Headers := [(ascii "Content-Length", ascii "5")]
    Body := [] }

/-- A response with an empty body whose mapping carries a Content-Length entry. -/
def emptyBodyResponse : Response Status :=
  { protocol := ascii "RTSP/1.0"
    Status := .OK
    Headers := [(ascii "Content-Length", ascii "5")]
    Body := [] }

/-- A request with an empty body and a mapping without Content-Length. -/
def plainRequest : Request Method :=
  { Method := .SETUP
    RequestURI := ascii "rtsp://x/track1"
    protocol := ascii "RTSP/1.0"
    Headers := [(ascii "CSeq", ascii "2"), (ascii "Transport", ascii "RTP/AVP;unicast")]
    Body := [] }

/-- A response with an empty body and a mapping without Content-Length. -/
def plainResponse : Response Status :=
  { protocol := ascii "RTSP/1.0"
    Status := .NotFound
    Headers := [(ascii "CSeq", ascii "2")]
    Body := [] }

/-- A request with the body "abc" whose mapping carries a stale Content-Length. -/
def abcRequest : Request Method :=
  { Method := .ANNOUNCE
    RequestURI := ascii "rtsp://x"
    protocol := ascii "RTSP/1.0"
    Headers := [(ascii "Content-Length", ascii "99"), (ascii "CSeq", ascii "1")]
    Body := ascii "abc" }

/-- A response with the body "abc". -/
def abcResponse : Response Status :=
  { protocol := ascii "RTSP/1.0"
    Status := .OK
    Headers := [(ascii "CSeq", ascii "1")]
    Body := ascii "abc" }

/-- A header that reads back as written: name and value have no colon, no line feed
and no surrounding white space. -/
def cleanHeader (h : List Byte × List Byte) : Prop :=
  COLON ∉ h.1 ∧ LF ∉ h.1 ∧ COLON ∉ h.2 ∧ LF ∉ h.2 ∧ TrimSpace h.1 = h.1 ∧ TrimSpace h.2 = h.2

/-- The two cutsets the readers trim lines by. -/
def lineCutset (cutset : List Byte) : Prop := cutset = [CR, LF] ∨ cutset = [LF]

/-- The names of a mapping. -/
def Headers.keys (m : Headers) : List (List Byte) := m.map Prod.fst

/-- A field of the request line that reads back as written: no space, no carriage
return, no line feed. -/
def cleanField (s : List Byte) : Prop := SP ∉ s ∧ CR ∉ s ∧ LF ∉ s

/-- A field of the status line that reads back as written: no space, no line feed. -/
def plainField (s : List Byte) : Prop := SP ∉ s ∧ LF ∉ s

/-- The headers on the wire: those of the mapping, then the Content-Length header that
the writers add for a non-empty body. -/
def writtenHeaders (hs : Headers) (body : List Byte) : Headers :=
  hs ++ (if body.length > 0 then [(contentLengthKey, Itoa body.length)] else [])

/-- A request with one header and the body "abc". -/
def bodyRequest : Request Method :=
  { Method := .OPTIONS
    RequestURI := ascii "rtsp://x"
    protocol := ascii "RTSP/1.0"
    Headers := [(ascii "CSeq", ascii "1")]
    Body := ascii "abc" }

/-- What `readRequest` returns for the bytes written for `bodyRequest`. -/
def bodyRequestRead : Request Method :=
  { Method := .OPTIONS
    RequestURI := ascii "rtsp://x"
    protocol := ascii "RTSP/1.0"
    Headers := [(ascii "CSeq", ascii "1"), (ascii "Content-Length", ascii "3")]
    Body := ascii "abc" }

/-- A request whose (ASCII) request URI holds a space. -/
def spaceUriRequest : Request Method :=
  { Method := .DESCRIBE
    RequestURI := ascii "rtsp://x/a b"
    protocol := ascii "RTSP/1.0"
    Headers := []
    Body := [] }

/-- A request with two headers and a body, all fields clean. -/
def announceRequest : Request Method :=
  { Method := .ANNOUNCE
    RequestURI := ascii "rtsp://host/stream"
    protocol := ascii "RTSP/1.0"
    Headers := [(ascii "CSeq", ascii "4"), (ascii "Content-Type", ascii "application/sdp")]
    Body := ascii "v=0\r\n" }

/-- A response with status 404, whose reason phrase "Not Found" holds a space. -/
def notFoundResponse : Response Status :=
  { protocol := ascii "RTSP/1.0"
    Status := .NotFound
    Headers := [(ascii "CSeq", ascii "1")]
    Body := [] }

/-- A response with status 200, one header and the body "abc". -/
def bodyResponse : Response Status :=
  { protocol := ascii "RTSP/1.0"
    Status := .OK
    Headers := [(ascii "CSeq", ascii "1")]
    Body := ascii "abc" }

/-- What `readResponse` returns for the bytes written for `bodyResponse`. -/
def bodyResponseRead : Response Status :=
  { protocol := ascii "RTSP/1.0"
    Status := .OK
    Headers := [(ascii "CSeq", ascii "1"), (ascii "Content-Length", ascii "3")]
    Body := ascii "abc" }

/-- A response with status 200, two headers and a body, all fields clean. -/
def describeResponse : Response Status :=
  { protocol := ascii "RTSP/1.0"
    Status := .OK
    Headers := [(ascii "CSeq", ascii "4"), (ascii "Content-Type", ascii "application/sdp")]
    Body := ascii "v=0\r\n" }

/-! ## Example inputs for malformed lengths, failing streams and unknown tokens -/

/-- A request whose Content-Length is a numeral beyond the range of `int`. -/
def outOfRangeLengthRequest : List Byte :=
  ascii "OPTIONS rtsp://x RTSP/1.0\r\nContent-Length: 99999999999999999999\r\n\r\n"

/-- A request whose Content-Length is not a numeral, followed by three bytes. -/
def wordLengthRequest : List Byte :=
  ascii "OPTIONS rtsp://x RTSP/1.0\r\nContent-Length: five\r\n\r\nabc"

/-- Head of `wordLengthRequest`. -/
def wordLengthRequestHead : Request Method :=
  { Method := .OPTIONS
    RequestURI := ascii "rtsp://x"
    protocol := ascii "RTSP/1.0"
    Headers := [(ascii "Content-Length", ascii "five")]
    Body := [] }

/-- A response whose Content-Length is not a numeral, followed by three bytes. -/
def wordLengthResponse : List Byte :=
  ascii "RTSP/1.0 200 OK\nContent-Length: five\n\nabc"

/-- Head of `wordLengthResponse`. -/
def wordLengthResponseHead : Response Status :=
  { protocol := ascii "RTSP/1.0"
    Status := .OK
    Headers := [(ascii "Content-Length", ascii "five")]
    Body := [] }

/-- A response stream that declares 5 body bytes, delivers 2 and then fails with an
I/O error other than end-of-stream. -/
def brokenResponseStream : Stream :=
  { data := ascii "RTSP/1.0 200 OK\nContent-Length: 5\n\nab", tail := .fault }

/-- What `readResponse` returns for `brokenResponseStream`. -/
def brokenResponseResult : Response Status :=
  { protocol := ascii "RTSP/1.0"
    Status := .OK
    Headers := [(ascii "Content-Length", ascii "5")]
    Body := [97, 98, 0, 0, 0] }

/-- A request stream that declares 5 body bytes, delivers 2 and then fails with an
I/O error other than end-of-stream. -/
def brokenRequestStream : Stream :=
  { data := ascii "OPTIONS rtsp://x RTSP/1.0\r\nContent-Length: 5\r\n\r\nab", tail := .fault }

/-- The spec's request with an unknown method. -/
def fooRequest : List Byte := ascii "FOO /stream RTSP/1.0\r\n\r\n"

/-- The spec's response with an unknown status code. -/
def nopeResponse : List Byte := ascii "RTSP/1.0 999 Nope\r\n\r\n"

/-- A request line with two spaces in a row: four fields, one of them empty. -/
def doubleSpaceRequest : List Byte := ascii "OPTIONS  rtsp://x RTSP/1.0\r\n\r\n"

/-! ## The lines of a header block -/

/-- The non-blank lines of a header block, each trimmed by the reader's cutset: the
complete lines that come before the first blank line. `pending` holds, last byte first,
the bytes of the current line met so far. -/
def headerFields (cutset : List Byte) : List Byte → List Byte → List (List Byte)
  | _, [] => []
  | pending, b :: bs =>
    if b = LF then
      if Trim (Trim (pending.reverse ++ [LF]) cutset) cutset = [] then []
      else Trim (pending.reverse ++ [LF]) cutset :: headerFields cutset [] bs
    else headerFields cutset (b :: pending) bs

/-- A request with the header line "BadHeaderNoColon". -/
def badHeaderRequest : List Byte :=
  ascii "OPTIONS rtsp://x RTSP/1.0\r\nCSeq: 1\r\nBadHeaderNoColon\r\n\r\n"

/-- A request without Content-Length header, followed by bytes that are not read. -/
def noLengthRequest : List Byte :=
  ascii "PLAY rtsp://x RTSP/1.0\r\nCSeq: 9\r\n\r\nleft over"

/-- Head of `noLengthRequest`. -/
def noLengthRequestHead : Request Method :=
  { Method := .PLAY
    RequestURI := ascii "rtsp://x"
    protocol := ascii "RTSP/1.0"
    Headers := [(ascii "CSeq", ascii "9")]
    Body := [] }

/-- A response without Content-Length header, followed by bytes that are not read. -/
def noLengthResponse : List Byte :=
  ascii "RTSP/1.0 200 OK\nCSeq: 9\n\nleft over"

/-- Head of `noLengthResponse`. -/
def noLengthResponseHead : Response Status :=
  { protocol := ascii "RTSP/1.0"
    Status := .OK
    Headers := [(ascii "CSeq", ascii "9")]
    Body := [] }

/-- The header a non-blank line with a colon stands for, as the readers take it: the
first field of the line split on the colon, and the second, both trimmed. -/
def parseHeaderField (f : List Byte) : List Byte × List Byte :=
  (TrimSpace ((Split f COLON).getD 0 []), TrimSpace ((Split f COLON).getD 1 []))

/-- The headers of a header block in the order of its lines, repeated names included. -/
def parsedHeaders (cutset : List Byte) (data : List Byte) : Headers :=
  (headerFields cutset [] data).map parseHeaderField

/-- The value of the last header named `k` in a list of headers in line order. -/
def lastValue (hs : Headers) (k : List Byte) : Option (List Byte) :=
  Headers.get hs.reverse k

/-- A request with the header CSeq on two lines. -/
def repeatedHeaderRequest : List Byte :=
  ascii "OPTIONS rtsp://x RTSP/1.0\r\nCSeq: 1\r\nSession: a\r\nCSeq : 2\r\n\r\n"

/-- What `readRequest` returns for `repeatedHeaderRequest`. -/
def repeatedHeaderRequestResult : Request Method :=
  { Method := .OPTIONS
    RequestURI := ascii "rtsp://x"
    protocol := ascii "RTSP/1.0"
    Headers := [(ascii "CSeq", ascii "2"), (ascii "Session", ascii "a")]
    Body := [] }

/-- A response with the header CSeq on two lines. -/
def repeatedHeaderResponse : List Byte :=
  ascii "RTSP/1.0 200 OK\nCSeq: 1\nSession: a\nCSeq : 2\n\n"

/-- What `readResponse` returns for `repeatedHeaderResponse`. -/
def repeatedHeaderResponseResult : Response Status :=
  { protocol := ascii "RTSP/1.0"
    Status := .OK
    Headers := [(ascii "CSeq", ascii "2"), (ascii "Session", ascii "a")]
    Body := [] }

/-- A string without leading or trailing white space: neither its first nor its last
rune is white space as defined by Unicode. -/
def noSurroundingSpace (s : List Byte) : Prop := spaceWidth s = 0 ∧ spaceWidthEnd s = 0

/-- A header whose name and value have no surrounding white space and no colon. -/
def tidyHeader (h : List Byte × List Byte) : Prop :=
  noSurroundingSpace h.1 ∧ COLON ∉ h.1 ∧ noSurroundingSpace h.2 ∧ COLON ∉ h.2

/-- A request whose header lines carry white space around names and values, and a
value with colons. -/
def untidyRequest : List Byte :=
  ascii "SETUP rtsp://x RTSP/1.0\r\n  Transport \t:  RTP/AVP ;unicast \r\nDate: 10:30:00\r\n\r\n"

/-- What `readRequest` returns for `untidyRequest`. -/
def untidyRequestResult : Request Method :=
  { Method := .SETUP
    RequestURI := ascii "rtsp://x"
    protocol := ascii "RTSP/1.0"
    Headers := [(ascii "Transport", ascii "RTP/AVP ;unicast"), (ascii "Date", ascii "10")]
    Body := [] }

/-- A response whose header lines carry white space around names and values. -/
def untidyResponse : List Byte :=
  ascii "RTSP/1.0 200 OK\n  Session \t:  12345678 \n\n"

/-- What `readResponse` returns for `untidyResponse`. -/
def untidyResponseResult : Response Status :=
  { protocol := ascii "RTSP/1.0"
    Status := .OK
    Headers := [(ascii "Session", ascii "12345678")]
    Body := [] }

/-! ## Lemmas on the readers -/

/-- Once the head is read, `readRequest` is its body step. -/
theorem readRequest_of_head {M S : Type} (V : Vocab M S) (r : Stream) (req : Request M)
    (after : List Byte) (h : requestHead V r = some (req, after)) :
    readRequest V r = requestBody req after r.tail := by
  unfold requestHead at h
  unfold readRequest
  cases hrs : ReadString r.data with
  | none => simp [hrs] at h
  | some p =>
    obtain ⟨line, rest⟩ := p
    simp only [hrs] at h ⊢
    by_cases hlen : (Split (Trim line [CR, LF]) SP).length ≠ 3
    · simp [hlen] at h
    · simp only [hlen, if_false] at h ⊢
      cases hm : V.getMethod ((Split (Trim line [CR, LF]) SP).getD 0 []) with
      | none => rw [hm] at h; cases h
      | some method =>
        simp only [hm] at h ⊢
        cases hl : headerLoop [CR, LF] r.tail [] [] rest with
        | fail e => rw [hl] at h; cases h
        | done headers after' =>
          simp only [hl, Option.some.injEq, Prod.mk.injEq] at h ⊢
          obtain ⟨h1, h2⟩ := h
          subst h1 h2
          rfl

/-- Once the head is read, `readResponse` is its body step. -/
theorem readResponse_of_head {M S : Type} (V : Vocab M S) (r : Stream) (resp : Response S)
    (after : List Byte) (h : responseHead V r = some (resp, after)) :
    readResponse V r = responseBody resp after r.tail := by
  unfold responseHead at h
  unfold readResponse
  cases hrs : ReadString r.data with
  | none => simp [hrs] at h
  | some p =>
    obtain ⟨line, rest⟩ := p
    simp only [hrs] at h ⊢
    by_cases hlen : (Split (Trim line [LF]) SP).length ≠ 3
    · simp [hlen] at h
    · simp only [hlen, if_false] at h ⊢
      cases ha : Atoi ((Split (Trim line [LF]) SP).getD 1 []) with
      | errSyntax => rw [ha] at h; cases h
      | errRange c => rw [ha] at h; cases h
      | ok statusNum =>
        simp only [ha] at h ⊢
        cases hm : V.getStatus statusNum with
        | none => rw [hm] at h; cases h
        | some status =>
          simp only [hm] at h ⊢
          cases hl : headerLoop [LF] r.tail [] [] rest with
          | fail e => rw [hl] at h; cases h
          | done headers after' =>
            simp only [hl, Option.some.injEq, Prod.mk.injEq] at h ⊢
            obtain ⟨h1, h2⟩ := h
            subst h1 h2
            rfl

/-- A length between 0 and the allocation limit gives a slice of that many zeros. -/
theorem makeSlice_of_le (n : Int) (h0 : 0 ≤ n) (hmax : n ≤ (maxAlloc : Int)) :
    makeSlice n = some (List.replicate n.toNat 0) := by
  simp [makeSlice, h0, hmax]

/-- A negative length, or one beyond the allocation limit, makes `make` panic. -/
theorem makeSlice_eq_none (n : Int) (h : n < 0 ∨ (maxAlloc : Int) < n) :
    makeSlice n = none := by
  unfold makeSlice
  rw [if_neg]
  omega

/-- With at least `k` bytes to come, `io.ReadFull` fills a buffer of `k` bytes with the
first `k` of them and returns no error. -/
theorem ReadFull_enough (data : List Byte) (tail : StreamEnd) (k : Nat)
    (h : k ≤ data.length) :
    ReadFull data tail (List.replicate k 0) = (data.take k, none) := by
  simp [ReadFull, h]

/-- With fewer than `k` bytes before the end of the stream, `io.ReadFull` leaves the
bytes read in front of the untouched rest of the buffer and returns an end-of-stream
error. -/
theorem ReadFull_short (data : List Byte) (k : Nat) (h : data.length < k) :
    ReadFull data .eof (List.replicate k 0) =
      (data ++ List.replicate (k - data.length) 0,
        some (if data = [] then Err.EOF else Err.ErrUnexpectedEOF)) := by
  have h' : ¬ k ≤ data.length := by omega
  simp [ReadFull, h']

/-- Body step of `readRequest` when the stream ends before the declared length: no
error, and the body is the buffer of the declared length with the bytes read in front. -/
theorem requestBody_short {M : Type} (req : Request M) (after cl : List Byte) (n : Int)
    (hcl : req.Headers.get contentLengthKey = some cl) (hn : Atoi cl = .ok n)
    (hshort : (after.length : Int) < n) (hmax : n ≤ (maxAlloc : Int)) :
    requestBody req after .eof =
      .ret (some { req with Body := after ++ List.replicate (n.toNat - after.length) 0 })
        none := by
  have h0 : 0 ≤ n := by omega
  have hk : after.length < n.toNat := by omega
  unfold requestBody
  simp only [hcl, hn, AtoiResult.value, makeSlice_of_le n h0 hmax, ReadFull_short after _ hk]
  by_cases he : after = [] <;> simp [he]

/-- Body step of `readRequest` when enough bytes follow: the body is the first `n`. -/
theorem requestBody_enough {M : Type} (req : Request M) (after cl : List Byte)
    (tail : StreamEnd) (n : Int)
    (hcl : req.Headers.get contentLengthKey = some cl) (hn : Atoi cl = .ok n)
    (h0 : 0 ≤ n) (hlen : n ≤ (after.length : Int)) (hmax : n ≤ (maxAlloc : Int)) :
    requestBody req after tail = .ret (some { req with Body := after.take n.toNat }) none := by
  have hk : n.toNat ≤ after.length := by omega
  unfold requestBody
  simp only [hcl, hn, AtoiResult.value, makeSlice_of_le n h0 hmax, ReadFull_enough after _ _ hk]

/-- Body step of `readRequest` when the buffer cannot be allocated. -/
theorem requestBody_panic {M : Type} (req : Request M) (after cl : List Byte)
    (tail : StreamEnd)
    (hcl : req.Headers.get contentLengthKey = some cl)
    (hbad : (Atoi cl).value < 0 ∨ (maxAlloc : Int) < (Atoi cl).value) :
    requestBody req after tail = .panic := by
  unfold requestBody
  simp only [hcl, makeSlice_eq_none _ hbad]

/-- Body step of `readResponse` when the stream ends before the declared length. -/
theorem responseBody_short {S : Type} (resp : Response S) (after cl : List Byte) (n : Int)
    (hcl : resp.Headers.get contentLengthKey = some cl) (hn : Atoi cl = .ok n)
    (hshort : (after.length : Int) < n) (hmax : n ≤ (maxAlloc : Int)) :
    responseBody resp after .eof =
      .ret (some { resp with Body := after ++ List.replicate (n.toNat - after.length) 0 })
        (some (.bodyBuffer (if after = [] then Err.EOF else Err.ErrUnexpectedEOF))) := by
  have h0 : 0 ≤ n := by omega
  have hk : after.length < n.toNat := by omega
  unfold responseBody
  simp only [hcl, hn, makeSlice_of_le n h0 hmax, ReadFull_short after _ hk]
  by_cases he : after = [] <;> simp [he]

/-- Body step of `readResponse` when enough bytes follow. -/
theorem responseBody_enough {S : Type} (resp : Response S) (after cl : List Byte)
    (tail : StreamEnd) (n : Int)
    (hcl : resp.Headers.get contentLengthKey = some cl) (hn : Atoi cl = .ok n)
    (h0 : 0 ≤ n) (hlen : n ≤ (after.length : Int)) (hmax : n ≤ (maxAlloc : Int)) :
    responseBody resp after tail =
      .ret (some { resp with Body := after.take n.toNat }) none := by
  have hk : n.toNat ≤ after.length := by omega
  unfold responseBody
  simp only [hcl, hn, makeSlice_of_le n h0 hmax, ReadFull_enough after _ _ hk]

/-- A line found in `a` is found in `a ++ x`, which only lengthens what remains. -/
theorem ReadString_append (a x line rest : List Byte)
    (h : ReadString a = some (line, rest)) :
    ReadString (a ++ x) = some (line, rest ++ x) := by
  induction a generalizing line rest with
  | nil => simp [ReadString] at h
  | cons b bs ih =>
    simp only [ReadString, List.cons_append] at h ⊢
    by_cases hb : b = LF
    · simp only [hb, if_true, Option.some.injEq, Prod.mk.injEq] at h ⊢
      obtain ⟨h1, h2⟩ := h
      subst h1 h2
      exact ⟨rfl, rfl⟩
    · simp only [hb, if_false] at h ⊢
      cases hr : ReadString bs with
      | none => rw [hr] at h; cases h
      | some p =>
        obtain ⟨l, r⟩ := p
        rw [hr] at h
        simp only [Option.some.injEq, Prod.mk.injEq] at h
        obtain ⟨h1, h2⟩ := h
        subst h1 h2
        have := ih l r hr
        simp only [List.append_eq] at this ⊢
        rw [this]

/-- A header block that ends within `a` ends at the same place in `a ++ x`. -/
theorem headerLoop_append (cutset : List Byte) (tail : StreamEnd) (a x : List Byte)
    (pending : List Byte) (hs hs' : Headers) (rest : List Byte)
    (h : headerLoop cutset tail pending hs a = .done hs' rest) :
    headerLoop cutset tail pending hs (a ++ x) = .done hs' (rest ++ x) := by
  induction a generalizing pending hs with
  | nil => simp [headerLoop] at h
  | cons b bs ih =>
    simp only [headerLoop, List.cons_append] at h ⊢
    by_cases hb : b = LF
    · simp only [hb, if_true] at h ⊢
      cases hstep : headerStep cutset hs (pending.reverse ++ [LF]) with
      | stop =>
        rw [hstep] at h
        simp only [HeaderLoop.done.injEq] at h ⊢
        obtain ⟨h1, h2⟩ := h
        subst h1 h2
        exact ⟨rfl, rfl⟩
      | fail e => rw [hstep] at h; cases h
      | next hs2 =>
        rw [hstep] at h
        exact ih [] hs2 h
    · simp only [hb, if_false] at h ⊢
      exact ih (b :: pending) hs h

/-- A request head read from `a` is read from `a ++ x`, with `x` after the bytes that
follow the blank line. -/
theorem requestHead_append {M S : Type} (V : Vocab M S) (a x : List Byte)
    (tail : StreamEnd) (req : Request M) (after : List Byte)
    (h : requestHead V { data := a, tail := tail } = some (req, after)) :
    requestHead V { data := a ++ x, tail := tail } = some (req, after ++ x) := by
  unfold requestHead at h ⊢
  simp only at h ⊢
  cases hrs : ReadString a with
  | none => rw [hrs] at h; cases h
  | some p =>
    obtain ⟨line, rest⟩ := p
    rw [hrs] at h
    rw [ReadString_append a x line rest hrs]
    simp only at h ⊢
    by_cases hlen : (Split (Trim line [CR, LF]) SP).length ≠ 3
    · rw [if_pos hlen] at h; cases h
    · rw [if_neg hlen] at h ⊢
      cases hm : V.getMethod ((Split (Trim line [CR, LF]) SP).getD 0 []) with
      | none => rw [hm] at h; cases h
      | some method =>
        rw [hm] at h
        simp only at h ⊢
        cases hl : headerLoop [CR, LF] tail [] [] rest with
        | fail e => rw [hl] at h; cases h
        | done headers after' =>
          rw [hl] at h
          rw [headerLoop_append [CR, LF] tail rest x [] [] headers after' hl]
          simp only [Option.some.injEq, Prod.mk.injEq] at h ⊢
          obtain ⟨h1, h2⟩ := h
          subst h1 h2
          exact ⟨rfl, rfl⟩

/-! ## Truncated and exact bodies (C3, C9, C10) -/

/-- C3: for the request that declares `Content-Length: 10` and supplies the 3 bytes
"abc", `readRequest` returns no error, but the body it returns has 10 bytes (the 3 bytes
read, then 7 zero bytes of the buffer), where the claim has a body of exactly the 3
bytes read: the count that `io.ReadFull` returns is discarded and the buffer is never
cut to it. -/
theorem readRequest_truncated_body_is_padded :
    readRequest specVocab (Stream.ofBytes truncatedRequest)
        = .ret (some truncatedRequestResult) none
      ∧ truncatedRequestResult.Body.length = 10
      ∧ truncatedRequestResult.Body ≠ ascii "abc" := by
  decide

/-- The short-body behaviour of `readRequest` in general: when the request line and
header block are well-formed and declare `Content-Length: n` with `n` within the
allocation limit, and only `k < n` bytes follow the blank line before end-of-stream,
`readRequest` returns no error and a Request whose body is the whole buffer of `n`
bytes, the `k` bytes read followed by `n - k` zero bytes, not the `k` bytes alone. -/
theorem readRequest_short_body {M S : Type} (V : Vocab M S) (r : Stream)
    (req : Request M) (after cl : List Byte) (n : Int)
    (hhead : requestHead V r = some (req, after)) (heof : r.tail = .eof)
    (hcl : req.Headers.get contentLengthKey = some cl) (hn : Atoi cl = .ok n)
    (hshort : (after.length : Int) < n) (hmax : n ≤ (maxAlloc : Int)) :
    readRequest V r =
      .ret (some { req with Body := after ++ List.replicate (n.toNat - after.length) 0 })
        none := by
  rw [readRequest_of_head V r req after hhead, heof]
  exact requestBody_short req after cl n hcl hn hshort hmax

/-- Witness for `readRequest_short_body`: 4 bytes declared, the 2 bytes "hi" supplied. -/
theorem readRequest_short_body_witness :
    requestHead specVocab (Stream.ofBytes shortRequest) = some (shortRequestHead, ascii "hi")
      ∧ readRequest specVocab (Stream.ofBytes shortRequest) =
          .ret (some { shortRequestHead with Body := ascii "hi" ++ [0, 0] })
            none :=
  ⟨by decide,
   readRequest_short_body specVocab (Stream.ofBytes shortRequest) shortRequestHead
     (ascii "hi") (ascii "4") 4 (by decide) rfl (by decide) (by decide) (by decide)
     (by decide)⟩

/-- C9, as stated, fails: for the response that declares
`Content-Length: 9223372036854775807` and supplies 3 bytes, `readResponse` returns
neither an error nor a Response; `make` panics on the length. -/
theorem readResponse_huge_length_panics :
    readResponse specVocab (Stream.ofBytes hugeLengthResponse) = .panic := by
  decide

/-- C9, amended: when the status line and header block are well-formed and declare an
integer `Content-Length: n` with `0 ≤ n` within the allocation limit, and the stream
ends with end-of-stream, `readResponse` returns an error exactly when fewer than `n`
bytes follow the blank line. In that case the Response with the parsed protocol
version, status and headers is returned alongside the error (its body is the buffer of
`n` bytes with the bytes read in front); otherwise the Response is returned with no
error and the first `n` bytes as body. -/
theorem readResponse_body_error_iff {M S : Type} (V : Vocab M S) (r : Stream)
    (resp : Response S) (after cl : List Byte) (n : Int)
    (hhead : responseHead V r = some (resp, after)) (heof : r.tail = .eof)
    (hcl : resp.Headers.get contentLengthKey = some cl) (hn : Atoi cl = .ok n)
    (h0 : 0 ≤ n) (hmax : n ≤ (maxAlloc : Int)) :
    ∃ body err,
      readResponse V r = .ret (some { resp with Body := body }) err
        ∧ (err ≠ none ↔ (after.length : Int) < n)
        ∧ ((after.length : Int) < n →
            body = after ++ List.replicate (n.toNat - after.length) 0)
        ∧ (n ≤ (after.length : Int) → body = after.take n.toNat) := by
  rw [readResponse_of_head V r resp after hhead, heof]
  by_cases hlt : (after.length : Int) < n
  · refine ⟨_, _, responseBody_short resp after cl n hcl hn hlt hmax, ?_, ?_, ?_⟩
    · simp [hlt]
    · intro _; rfl
    · intro h; omega
  · have hle : n ≤ (after.length : Int) := by omega
    refine ⟨_, _, responseBody_enough resp after cl .eof n hcl hn h0 hle hmax, ?_, ?_, ?_⟩
    · simp [hlt]
    · intro h; exact absurd h hlt
    · intro _; rfl

/-- Witness for `readResponse_body_error_iff`: 5 bytes declared, 2 supplied. -/
theorem readResponse_body_error_iff_witness :
    responseHead specVocab (Stream.ofBytes shortResponse)
        = some (shortResponseHead, ascii "hi")
      ∧ ∃ body err,
          readResponse specVocab (Stream.ofBytes shortResponse)
              = .ret (some { shortResponseHead with Body := body }) err
            ∧ (err ≠ none ↔ ((ascii "hi").length : Int) < 5)
            ∧ (((ascii "hi").length : Int) < 5 →
                body = ascii "hi" ++ List.replicate ((5 : Int).toNat - (ascii "hi").length) 0)
            ∧ ((5 : Int) ≤ ((ascii "hi").length : Int) → body = (ascii "hi").take (5 : Int).toNat) :=
  ⟨by decide,
   readResponse_body_error_iff specVocab (Stream.ofBytes shortResponse) shortResponseHead
     (ascii "hi") (ascii "5") 5 (by decide) rfl (by decide) (by decide) (by decide)
     (by decide)⟩

/-- C10, as stated, fails: for the request that declares
`Content-Length: 9223372036854775807` and is followed by that many bytes, `readRequest`
does not succeed; `make` panics on the length. -/
theorem readRequest_huge_length_panics :
    (List.replicate 9223372036854775807 (0 : Byte)).length = 9223372036854775807
      ∧ readRequest specVocab
          (Stream.ofBytes (hugeLengthRequest ++ List.replicate 9223372036854775807 0))
        = .panic := by
  refine ⟨List.length_replicate _ _, ?_⟩
  have hhead : requestHead specVocab
      { data := hugeLengthRequest ++ List.replicate 9223372036854775807 0, tail := .eof }
      = some (hugeLengthRequestHead, [] ++ List.replicate 9223372036854775807 0) :=
    requestHead_append specVocab hugeLengthRequest _ .eof hugeLengthRequestHead []
      (by decide)
  have hstep := readRequest_of_head specVocab _ _ _ hhead
  have hpanic := requestBody_panic hugeLengthRequestHead
    ([] ++ List.replicate 9223372036854775807 0) (ascii "9223372036854775807") .eof
    (by decide) (by decide)
  exact hstep.trans hpanic

/-- C10, amended: when the request line and header block are well-formed and declare
`Content-Length: n` with `0 ≤ n` within the allocation limit, and at least `n` bytes
follow the blank line, `readRequest` succeeds and the body is exactly the first `n`
bytes after the blank line; the bytes after those are not part of the Request. -/
theorem readRequest_body_exact {M S : Type} (V : Vocab M S) (r : Stream)
    (req : Request M) (after cl : List Byte) (n : Int)
    (hhead : requestHead V r = some (req, after))
    (hcl : req.Headers.get contentLengthKey = some cl) (hn : Atoi cl = .ok n)
    (h0 : 0 ≤ n) (hlen : n ≤ (after.length : Int)) (hmax : n ≤ (maxAlloc : Int)) :
    readRequest V r = .ret (some { req with Body := after.take n.toNat }) none
      ∧ (after.take n.toNat).length = n.toNat := by
  rw [readRequest_of_head V r req after hhead]
  refine ⟨requestBody_enough req after cl r.tail n hcl hn h0 hlen hmax, ?_⟩
  rw [List.length_take]
  omega

/-- Witness for `readRequest_body_exact`: the bytes "hello!!" follow a header block
that declares 5 bytes; the body is "hello". -/
theorem readRequest_body_exact_witness :
    requestHead specVocab (Stream.ofBytes helloRequest)
        = some (helloRequestHead, ascii "hello!!")
      ∧ readRequest specVocab (Stream.ofBytes helloRequest)
          = .ret (some { helloRequestHead with Body := ascii "hello" }) none :=
  ⟨by decide,
   (readRequest_body_exact specVocab (Stream.ofBytes helloRequest) helloRequestHead
     (ascii "hello!!") (ascii "5") 5 (by decide) (by decide) (by decide) (by decide)
     (by decide) (by decide)).1⟩

/-! ## Panics, line ends and header values (C4, C5, C8) -/

/-- C4: on a negative Content-Length both readers panic in `make([]byte, length)`,
where the claim has them end with a message or an error. -/
theorem readers_panic_on_negative_length :
    readRequest specVocab (Stream.ofBytes negativeLengthRequest) = .panic
      ∧ readResponse specVocab (Stream.ofBytes negativeLengthResponse) = .panic := by
  decide

/-- C5: `readResponse` rejects the response whose lines end in carriage return and
line feed (the blank line, trimmed of line feed only, is "\r", a header without colon),
while it accepts the same text with lines ended by line feed alone. -/
theorem readResponse_rejects_crlf :
    readResponse specVocab (Stream.ofBytes crlfResponse)
        = .ret none (some (.header [CR]))
      ∧ readResponse specVocab (Stream.ofBytes lfResponse) = .ret (some okResponse) none := by
  decide

/-- C8: for the header line "Content-Base: rtsp://host/x" both readers store the value
"rtsp", the text between the first and the second colon, not the rest of the line. -/
theorem header_value_stops_at_second_colon :
    readRequest specVocab (Stream.ofBytes contentBaseRequest)
        = .ret (some contentBaseRequestResult) none
      ∧ contentBaseRequestResult.Headers.get (ascii "Content-Base") = some (ascii "rtsp")
      ∧ readResponse specVocab (Stream.ofBytes contentBaseResponse)
        = .ret (some contentBaseResponseResult) none
      ∧ contentBaseResponseResult.Headers.get (ascii "Content-Base") = some (ascii "rtsp") := by
  decide

/-! ## Decimal numerals -/

/-- Reading more digits does not make the number smaller. -/
theorem decimalValue_ge (a : Nat) (s : List Byte) : a ≤ decimalValue a s := by
  induction s generalizing a with
  | nil => simp [decimalValue]
  | cons c cs ih =>
    have := ih (a * 10 + (c - 48))
    simp only [decimalValue, List.foldl_cons] at this ⊢
    omega

/-- On digits whose value fits 64 bits the loop of `ParseUint` returns that value. -/
theorem parseUintAux_digits (s : List Byte) (a : Nat) (hd : ∀ c ∈ s, isDigit c)
    (hfit : decimalValue a s ≤ 2 ^ 64 - 1) :
    parseUintAux s a = .ok (decimalValue a s) := by
  induction s generalizing a with
  | nil => simp [parseUintAux, decimalValue]
  | cons c cs ih =>
    have hc : 48 ≤ c ∧ c ≤ 57 := hd c (List.mem_cons_self _ _)
    have hstep : decimalValue a (c :: cs) = decimalValue (a * 10 + (c - 48)) cs := by
      simp [decimalValue]
    have hge := decimalValue_ge (a * 10 + (c - 48)) cs
    rw [hstep] at hfit ⊢
    have hno : ¬ a * 10 + (c - 48) > 2 ^ 64 - 1 := by omega
    simp only [parseUintAux, hc, and_self, if_true, hno, if_false]
    exact ih _ (fun c' hc' => hd c' (List.mem_cons_of_mem _ hc')) hfit

/-- With enough fuel `digitsAux` puts in front of `acc` a non-empty string of digits
whose value is `n`. -/
theorem digitsAux_spec (fuel n : Nat) (acc : List Byte) (hfuel : n < fuel) :
    ∃ ds : List Byte, digitsAux fuel n acc = ds ++ acc ∧ ds ≠ [] ∧ (∀ c ∈ ds, isDigit c)
      ∧ ∀ a, decimalValue a ds = a * 10 ^ ds.length + n := by
  induction fuel generalizing n acc with
  | zero => omega
  | succ fuel ih =>
    by_cases hn : n < 10
    · refine ⟨[48 + n], by simp [digitsAux, hn], by simp, ?_, ?_⟩
      · intro c hc
        simp only [List.mem_singleton] at hc
        subst hc
        unfold isDigit
        omega
      · intro a
        simp [decimalValue]
    · have hlt : n / 10 < fuel := by omega
      obtain ⟨ds, heq, _, hdig, hval⟩ := ih (n / 10) ((48 + n % 10) :: acc) hlt
      refine ⟨ds ++ [48 + n % 10], by simp [digitsAux, hn, heq], by simp, ?_, ?_⟩
      · intro c hc
        rcases List.mem_append.mp hc with h | h
        · exact hdig c h
        · simp only [List.mem_singleton] at h
          subst h
          unfold isDigit
          omega
      · intro a
        have h1 : decimalValue a (ds ++ [48 + n % 10])
            = decimalValue a ds * 10 + (48 + n % 10 - 48) := by
          simp [decimalValue, List.foldl_append]
        rw [h1, hval a, List.length_append, List.length_singleton, pow_succ]
        have h2 : 48 + n % 10 - 48 = n % 10 := by omega
        rw [h2]
        have h3 := Nat.div_add_mod n 10
        nlinarith [h3]

/-- The numeral `Itoa n` is a non-empty string of digits with value `n`. -/
theorem Itoa_spec (n : Nat) :
    Itoa n ≠ [] ∧ (∀ c ∈ Itoa n, isDigit c) ∧ decimalValue 0 (Itoa n) = n := by
  obtain ⟨ds, heq, hne, hdig, hval⟩ := digitsAux_spec (n + 1) n [] (Nat.lt_succ_self n)
  have h : Itoa n = ds := by simp [Itoa, heq]
  rw [h]
  exact ⟨hne, hdig, by simpa using hval 0⟩

/-- Function `strconv.Atoi` reads back the numeral that `strconv.Itoa` writes. -/
theorem Atoi_Itoa (n : Nat) (hn : n < 2 ^ 63) : Atoi (Itoa n) = .ok (n : Int) := by
  obtain ⟨hne, hdig, hval⟩ := Itoa_spec n
  cases hs : Itoa n with
  | nil => exact absurd hs hne
  | cons c cs =>
    rw [hs] at hdig hval
    have hc : isDigit c := hdig c (List.mem_cons_self _ _)
    unfold isDigit at hc
    have hc1 : ¬ c = 43 := by unfold Byte at *; omega
    have hc2 : ¬ c = 45 := by unfold Byte at *; omega
    have hp := parseUintAux_digits (c :: cs) 0 hdig (by rw [hval]; omega)
    rw [hval] at hp
    simp [Atoi, hc1, hc2, hp]
    omega

/-- Function `strconv.Atoi` reads back what `%d` prints for an `int`. -/
theorem Atoi_fmtInt (i : Int) (hlo : -(2 ^ 63 : Int) ≤ i) (hhi : i < (2 ^ 63 : Int)) :
    Atoi (fmtInt i) = .ok i := by
  by_cases hneg : i < 0
  · obtain ⟨hne, hdig, hval⟩ := Itoa_spec i.natAbs
    have hp := parseUintAux_digits (Itoa i.natAbs) 0 hdig (by rw [hval]; omega)
    rw [hval] at hp
    cases hs : Itoa i.natAbs with
    | nil => exact absurd hs hne
    | cons c cs =>
      rw [hs] at hp
      simp only [fmtInt, hneg, if_true, hs, Atoi, decide_True, or_true, hp]
      rw [if_neg (by omega)]
      congr 1
      omega
  · have h := Atoi_Itoa i.natAbs (by omega)
    have hi : (i.natAbs : Int) = i := by omega
    simp only [fmtInt, hneg, if_false]
    rw [h, hi]

/-! ## The Content-Length line of the writers (C6, C7) -/

/-- C7: for a non-empty body, the bytes written are the first line, the header lines
of the mapping, then the line "Content-Length: " followed by the decimal numeral of
`len(body)`, the blank line and the body. The Content-Length line is the last line of
the header block, and its number is the body length (the numeral `Itoa n` has value
`n`), whatever the mapping holds. -/
theorem write_content_length_line_last {M S : Type} (V : Vocab M S)
    (request : Request M) (resp : Response S)
    (hreq : request.Body ≠ []) (hresp : resp.Body ≠ []) :
    writeRequest V request =
        (ToUpper (V.methodString request.Method) ++ [SP] ++ request.RequestURI ++ [SP]
          ++ request.protocol ++ [LF])
        ++ headerBlock request.Headers
        ++ (ascii "Content-Length: " ++ Itoa request.Body.length ++ [LF])
        ++ [LF] ++ request.Body
      ∧ writeResponse V resp =
        (resp.protocol ++ [SP] ++ fmtInt (V.statusCode resp.Status) ++ [SP]
          ++ V.statusString resp.Status ++ [LF])
        ++ headerBlock resp.Headers
        ++ (ascii "Content-Length: " ++ Itoa resp.Body.length ++ [LF])
        ++ [LF] ++ resp.Body
      ∧ decimalValue 0 (Itoa request.Body.length) = request.Body.length
      ∧ decimalValue 0 (Itoa resp.Body.length) = resp.Body.length := by
  have h1 : request.Body.length > 0 := List.length_pos.mpr hreq
  have h2 : resp.Body.length > 0 := List.length_pos.mpr hresp
  have hkey : ascii "Content-Length: " = contentLengthKey ++ [COLON, SP] := by decide
  refine ⟨?_, ?_, (Itoa_spec _).2.2, (Itoa_spec _).2.2⟩
  · simp only [writeRequest, h1, if_true, contentLengthLine, hkey]
  · simp only [writeResponse, h2, if_true, contentLengthLine, hkey]

/-- Witness for `write_content_length_line_last`: the body "abc" yields the line
"Content-Length: 3" after the lines of the mapping, also when the mapping holds
"Content-Length: 99". -/
theorem write_content_length_line_last_witness :
    abcRequest.Body ≠ [] ∧ abcResponse.Body ≠ []
      ∧ writeRequest specVocab abcRequest
          = ascii "ANNOUNCE rtsp://x RTSP/1.0\nContent-Length: 99\nCSeq: 1\nContent-Length: 3\n\nabc"
      ∧ writeResponse specVocab abcResponse
          = ascii "RTSP/1.0 200 OK\nCSeq: 1\nContent-Length: 3\n\nabc" :=
  ⟨by decide, by decide,
   (write_content_length_line_last specVocab abcRequest abcResponse
      (by decide) (by decide)).1.trans (by decide),
   (write_content_length_line_last specVocab abcRequest abcResponse
      (by decide) (by decide)).2.1.trans (by decide)⟩

/-- `Split` never returns an empty list of fields. -/
theorem Split_ne_nil (s : List Byte) (sep : Byte) : Split s sep ≠ [] := by
  cases s with
  | nil => simp [Split]
  | cons b bs =>
    unfold Split
    by_cases hb : b = sep
    · simp [hb]
    · simp only [hb, if_false]
      cases Split bs sep <;> simp

/-- A string without the separator is a single field. -/
theorem Split_of_not_mem (s : List Byte) (sep : Byte) (h : sep ∉ s) : Split s sep = [s] := by
  induction s with
  | nil => simp [Split]
  | cons b bs ih =>
    have hb : ¬ b = sep := fun e => h (by simp [e])
    have hbs : sep ∉ bs := fun e => h (List.mem_cons_of_mem _ e)
    simp [Split, hb, ih hbs]

/-- The first field ends at the first separator. -/
theorem Split_append_sep (a rest : List Byte) (sep : Byte) (h : sep ∉ a) :
    Split (a ++ sep :: rest) sep = a :: Split rest sep := by
  induction a with
  | nil => simp [Split]
  | cons b bs ih =>
    have hb : ¬ b = sep := fun e => h (by simp [e])
    have hbs : sep ∉ bs := fun e => h (List.mem_cons_of_mem _ e)
    simp [Split, hb, ih hbs]

/-- The text of a header line without its line feed. -/
theorem headerLine_eq (h : List Byte × List Byte) :
    headerLine h = (h.1 ++ [COLON, SP] ++ h.2) ++ [LF] := rfl

/-- Lines of a header block whose names and values have no line feed: one line per
header, then what follows the block. -/
theorem Split_headerBlock (hs : Headers) (rest : List Byte)
    (hlf : ∀ h ∈ hs, LF ∉ h.1 ∧ LF ∉ h.2) :
    Split (headerBlock hs ++ rest) LF
      = hs.map (fun h => h.1 ++ [COLON, SP] ++ h.2) ++ Split rest LF := by
  induction hs with
  | nil => simp [headerBlock]
  | cons h hs ih =>
    obtain ⟨h1, h2⟩ := hlf h (List.mem_cons_self _ _)
    have hno : LF ∉ h.1 ++ [COLON, SP] ++ h.2 := by
      simp only [List.mem_append, List.mem_cons, List.mem_singleton, List.not_mem_nil,
        or_false, not_or]
      exact ⟨⟨h1, by decide, by decide⟩, h2⟩
    have hrec := ih (fun h' hh' => hlf h' (List.mem_cons_of_mem _ hh'))
    have hcons : headerBlock (h :: hs) ++ rest
        = (h.1 ++ [COLON, SP] ++ h.2) ++ LF :: (headerBlock hs ++ rest) := by
      simp [headerBlock, headerLine]
    rw [hcons, Split_append_sep _ _ _ hno, hrec]
    simp

/-- A string that begins with `a` and a separator, and whose own first separator comes
after `k`, has `a = k`. -/
theorem eq_of_prefix_sep (a k w : List Byte) (c : Byte) (ha : c ∉ a) (hk : c ∉ k)
    (h : a ++ [c] <+: k ++ c :: w) : a = k := by
  induction a generalizing k with
  | nil =>
    cases k with
    | nil => rfl
    | cons x k' =>
      simp only [List.nil_append, List.cons_append, List.cons_prefix_cons] at h
      exact absurd (by simp [h.1]) hk
  | cons y a' ih =>
    cases k with
    | nil =>
      simp only [List.nil_append, List.cons_append, List.cons_prefix_cons] at h
      exact absurd (by simp [h.1]) ha
    | cons x k' =>
      simp only [List.cons_append, List.cons_prefix_cons] at h
      have := ih k' (fun e => ha (List.mem_cons_of_mem _ e))
        (fun e => hk (List.mem_cons_of_mem _ e)) h.2
      rw [h.1, this]

/-- The line of a plain header is not a Content-Length line. -/
theorem isContentLengthLine_plain (h : List Byte × List Byte) (hp : plainHeader h) :
    isContentLengthLine (h.1 ++ [COLON, SP] ++ h.2) = false := by
  obtain ⟨hne, hcolon, _, _⟩ := hp
  by_contra hcon
  have htrue : isContentLengthLine (h.1 ++ [COLON, SP] ++ h.2) = true := by
    simpa using hcon
  unfold isContentLengthLine at htrue
  rw [List.isPrefixOf_iff_prefix] at htrue
  have hform : h.1 ++ [COLON, SP] ++ h.2 = h.1 ++ COLON :: (SP :: h.2) := by simp
  rw [hform] at htrue
  exact hne (eq_of_prefix_sep contentLengthKey h.1 _ COLON (by decide) hcolon htrue).symm

/-- Header lines of written bytes made of a first line without line feed, the block
of a mapping of plain headers and the blank line: none is a Content-Length line. -/
theorem hasContentLengthLine_plain (first : List Byte) (hs : Headers)
    (hfirst : LF ∉ first) (hplain : ∀ h ∈ hs, plainHeader h) :
    hasContentLengthLine (first ++ [LF] ++ headerBlock hs ++ [LF]) = false := by
  have hlf : ∀ h ∈ hs, LF ∉ h.1 ∧ LF ∉ h.2 := fun h hh => ⟨(hplain h hh).2.2.1, (hplain h hh).2.2.2⟩
  have hform : first ++ [LF] ++ headerBlock hs ++ [LF]
      = first ++ LF :: (headerBlock hs ++ [LF]) := by simp
  have hsplit : Split [LF] LF = [[], []] := by decide
  unfold hasContentLengthLine headerLinesOf
  rw [hform, Split_append_sep _ _ _ hfirst, Split_headerBlock hs [LF] hlf, hsplit]
  simp only [List.drop_succ_cons, List.drop_zero]
  rw [List.any_eq_false]
  intro l hl
  have hl' := List.mem_takeWhile_imp hl
  have hmem := (List.takeWhile_prefix (fun l => decide (l ≠ []))).subset hl
  rcases List.mem_append.mp hmem with hm | hm
  · obtain ⟨h, hh, rfl⟩ := List.mem_map.mp hm
    rw [isContentLengthLine_plain h (hplain h hh)]
    exact Bool.false_ne_true
  · simp only [List.mem_cons, List.mem_singleton, List.not_mem_nil, or_false, or_self] at hm
    subst hm
    simp at hl'

/-- C6, as stated, fails: a Request and a Response with an empty body whose mapping
holds the entry "Content-Length: 5" are written with the header line
"Content-Length: 5". -/
theorem write_empty_body_keeps_mapping_content_length :
    emptyBodyRequest.Body = [] ∧ emptyBodyResponse.Body = []
      ∧ writeRequest specVocab emptyBodyRequest
          = ascii "OPTIONS rtsp://x RTSP/1.0\nContent-Length: 5\n\n"
      ∧ hasContentLengthLine (writeRequest specVocab emptyBodyRequest) = true
      ∧ writeResponse specVocab emptyBodyResponse
          = ascii "RTSP/1.0 200 OK\nContent-Length: 5\n\n"
      ∧ hasContentLengthLine (writeResponse specVocab emptyBodyResponse) = true := by
  decide

/-- C6, amended: for a Request or Response whose body is empty and whose mapping has no
entry named Content-Length (header names without colon; first-line fields, header
names and header values without line feed), the bytes written contain no
Content-Length header line. The writers add none of their own: the header block is
exactly the lines of the mapping. -/
theorem write_empty_body_no_content_length {M S : Type} (V : Vocab M S)
    (request : Request M) (resp : Response S)
    (hreq : request.Body = []) (hresp : resp.Body = [])
    (hreqFirst : LF ∉ ToUpper (V.methodString request.Method) ++ [SP] ++ request.RequestURI
      ++ [SP] ++ request.protocol)
    (hrespFirst : LF ∉ resp.protocol ++ [SP] ++ fmtInt (V.statusCode resp.Status) ++ [SP]
      ++ V.statusString resp.Status)
    (hreqPlain : ∀ h ∈ request.Headers, plainHeader h)
    (hrespPlain : ∀ h ∈ resp.Headers, plainHeader h) :
    hasContentLengthLine (writeRequest V request) = false
      ∧ hasContentLengthLine (writeResponse V resp) = false
      ∧ writeRequest V request
          = ToUpper (V.methodString request.Method) ++ [SP] ++ request.RequestURI ++ [SP]
              ++ request.protocol ++ [LF] ++ headerBlock request.Headers ++ [LF]
      ∧ writeResponse V resp
          = resp.protocol ++ [SP] ++ fmtInt (V.statusCode resp.Status) ++ [SP]
              ++ V.statusString resp.Status ++ [LF] ++ headerBlock resp.Headers ++ [LF] := by
  have e1 : writeRequest V request
      = ToUpper (V.methodString request.Method) ++ [SP] ++ request.RequestURI ++ [SP]
          ++ request.protocol ++ [LF] ++ headerBlock request.Headers ++ [LF] := by
    simp [writeRequest, hreq]
  have e2 : writeResponse V resp
      = resp.protocol ++ [SP] ++ fmtInt (V.statusCode resp.Status) ++ [SP]
          ++ V.statusString resp.Status ++ [LF] ++ headerBlock resp.Headers ++ [LF] := by
    simp [writeResponse, hresp]
  refine ⟨?_, ?_, e1, e2⟩
  · rw [e1]
    exact hasContentLengthLine_plain _ _ hreqFirst hreqPlain
  · rw [e2]
    exact hasContentLengthLine_plain _ _ hrespFirst hrespPlain

/-- Witness for `write_empty_body_no_content_length`: a SETUP request and a 404 response
without body, with mappings that have no Content-Length entry. -/
theorem write_empty_body_no_content_length_witness :
    plainRequest.Body = [] ∧ plainResponse.Body = []
      ∧ (∀ h ∈ plainRequest.Headers, plainHeader h)
      ∧ (∀ h ∈ plainResponse.Headers, plainHeader h)
      ∧ hasContentLengthLine (writeRequest specVocab plainRequest) = false
      ∧ hasContentLengthLine (writeResponse specVocab plainResponse) = false :=
  ⟨rfl, rfl, by unfold plainHeader; decide, by unfold plainHeader; decide,
   (write_empty_body_no_content_length specVocab plainRequest plainResponse rfl rfl
      (by decide) (by decide) (by unfold plainHeader; decide)
      (by unfold plainHeader; decide)).1,
   (write_empty_body_no_content_length specVocab plainRequest plainResponse rfl rfl
      (by decide) (by decide) (by unfold plainHeader; decide)
      (by unfold plainHeader; decide)).2.1⟩

/-! ## Reading back what the writers write: lines -/

/-- A line without line feed, followed by a line feed, is what `ReadString` returns. -/
theorem ReadString_line (line rest : List Byte) (h : LF ∉ line) :
    ReadString (line ++ LF :: rest) = some (line ++ [LF], rest) := by
  induction line with
  | nil => simp [ReadString]
  | cons b bs ih =>
    have hb : ¬ b = LF := fun e => h (by simp [e])
    have hbs : LF ∉ bs := fun e => h (List.mem_cons_of_mem _ e)
    simp [ReadString, hb, ih hbs]

/-- A string whose first and last bytes are outside the cutset is left as it is. -/
theorem Trim_self (x cutset : List Byte)
    (hfirst : ∀ a, x.head? = some a → a ∉ cutset)
    (hlast : ∀ a, x.getLast? = some a → a ∉ cutset) :
    Trim x cutset = x := by
  unfold Trim
  have h1 : x.dropWhile (fun b => decide (b ∈ cutset)) = x := by
    cases x with
    | nil => rfl
    | cons a t =>
      have := hfirst a rfl
      simp [List.dropWhile, this]
  rw [h1]
  have h2 : x.reverse.dropWhile (fun b => decide (b ∈ cutset)) = x.reverse := by
    cases hr : x.reverse with
    | nil => rfl
    | cons a t =>
      have hl : x.getLast? = some a := by
        rw [List.getLast?_eq_head?_reverse, hr]
        rfl
      have := hlast a hl
      simp [List.dropWhile, this]
  rw [h2, List.reverse_reverse]

/-- The line feed that ends a line is trimmed away when it belongs to the cutset and
the first and last bytes before it do not. -/
theorem Trim_line (x cutset : List Byte) (hLF : LF ∈ cutset)
    (hfirst : ∀ a, x.head? = some a → a ∉ cutset)
    (hlast : ∀ a, x.getLast? = some a → a ∉ cutset) :
    Trim (x ++ [LF]) cutset = x := by
  unfold Trim
  have h1 : (x ++ [LF]).dropWhile (fun b => decide (b ∈ cutset))
      = if x = [] then [] else x ++ [LF] := by
    cases x with
    | nil => simp [List.dropWhile, hLF]
    | cons a t =>
      have := hfirst a rfl
      simp [List.dropWhile, this]
  rw [h1]
  by_cases hx : x = []
  · simp [hx]
  · simp only [hx, if_false, List.reverse_append, List.reverse_cons, List.reverse_nil,
      List.nil_append, List.singleton_append]
    have h2 : (LF :: x.reverse).dropWhile (fun b => decide (b ∈ cutset)) = x.reverse := by
      rw [List.dropWhile_cons_of_pos (by simpa using hLF)]
      cases hr : x.reverse with
      | nil => rfl
      | cons a t =>
        have hl : x.getLast? = some a := by
          rw [List.getLast?_eq_head?_reverse, hr]
          rfl
        have := hlast a hl
        simp [List.dropWhile, this]
    rw [h2, List.reverse_reverse]

/-- Three fields without the separator, joined by it, split back into the three. -/
theorem Split_three (a b c : List Byte) (sep : Byte)
    (ha : sep ∉ a) (hb : sep ∉ b) (hc : sep ∉ c) :
    Split (a ++ [sep] ++ b ++ [sep] ++ c) sep = [a, b, c] := by
  have hform : a ++ [sep] ++ b ++ [sep] ++ c = a ++ sep :: (b ++ sep :: c) := by simp
  rw [hform, Split_append_sep _ _ _ ha, Split_append_sep _ _ _ hb, Split_of_not_mem _ _ hc]

/-! ## White space -/

/-- One turn of `trimLeftSpace`. -/
theorem trimLeftSpace_succ (n : Nat) (s : List Byte) :
    trimLeftSpace (n + 1) s
      = if spaceWidth s = 0 then s else trimLeftSpace n (s.drop (spaceWidth s)) := by
  rw [trimLeftSpace]
  split
  · rename_i h0
    simp [h0]
  · rename_i h0
    have h1 : ¬ spaceWidth s = 0 := fun e => h0 e
    simp [h1]

/-- One turn of `trimRightSpace`. -/
theorem trimRightSpace_succ (n : Nat) (s : List Byte) :
    trimRightSpace (n + 1) s
      = if spaceWidthEnd s = 0 then s
        else trimRightSpace n (s.take (s.length - spaceWidthEnd s)) := by
  rw [trimRightSpace]
  split
  · rename_i h0
    simp [h0]
  · rename_i h0
    have h1 : ¬ spaceWidthEnd s = 0 := fun e => h0 e
    simp [h1]

/-- Trimming on the left never lengthens a string. -/
theorem trimLeftSpace_length_le (n : Nat) (s : List Byte) :
    (trimLeftSpace n s).length ≤ s.length := by
  induction n generalizing s with
  | zero => simp [trimLeftSpace]
  | succ n ih =>
    rw [trimLeftSpace_succ]
    split
    · exact le_refl _
    · exact le_trans (ih _) (by simp)

/-- Trimming on the right never lengthens a string. -/
theorem trimRightSpace_length_le (n : Nat) (s : List Byte) :
    (trimRightSpace n s).length ≤ s.length := by
  induction n generalizing s with
  | zero => simp [trimRightSpace]
  | succ n ih =>
    rw [trimRightSpace_succ]
    split
    · exact le_refl _
    · exact le_trans (ih _) (by simp)

/-- Trimming on the left either changes nothing or shortens the string. -/
theorem trimLeftSpace_eq_or_lt (n : Nat) (s : List Byte) :
    trimLeftSpace n s = s ∨ (trimLeftSpace n s).length < s.length := by
  cases n with
  | zero => left; rfl
  | succ n =>
    rw [trimLeftSpace_succ]
    by_cases hw : spaceWidth s = 0
    · left
      simp [hw]
    · simp only [hw, if_false]
      cases s with
      | nil => exact absurd rfl hw
      | cons b t =>
        right
        have h1 := trimLeftSpace_length_le n ((b :: t).drop (spaceWidth (b :: t)))
        have h2 : ((b :: t).drop (spaceWidth (b :: t))).length < (b :: t).length := by
          rw [List.length_drop]
          simp only [List.length_cons]
          omega
        omega

/-- A string that `TrimSpace` leaves unchanged does not begin with an ASCII space. -/
theorem head_not_space_of_TrimSpace_eq (s : List Byte) (h : TrimSpace s = s) (a : Byte)
    (ha : s.head? = some a) : asciiSpace a = false := by
  by_contra hcon
  have hsp : asciiSpace a = true := by simpa using hcon
  cases s with
  | nil => simp at ha
  | cons b t =>
    simp only [List.head?_cons, Option.some.injEq] at ha
    subst ha
    have h1 : trimLeftSpace (b :: t).length (b :: t) = trimLeftSpace t.length t := by
      simp [trimLeftSpace, spaceWidth, hsp]
    have h2 := trimRightSpace_length_le (trimLeftSpace t.length t).length
      (trimLeftSpace t.length t)
    have h3 := trimLeftSpace_length_le t.length t
    have h4 : (TrimSpace (b :: t)).length ≤ t.length := by
      unfold TrimSpace
      simp only [h1]
      omega
    rw [h] at h4
    simp at h4

/-- A string that `TrimSpace` leaves unchanged does not end with an ASCII space. -/
theorem last_not_space_of_TrimSpace_eq (s : List Byte) (h : TrimSpace s = s) (a : Byte)
    (ha : s.getLast? = some a) : asciiSpace a = false := by
  by_contra hcon
  have hsp : asciiSpace a = true := by simpa using hcon
  have hne : s ≠ [] := by
    intro e
    subst e
    simp at ha
  have hpos : 0 < s.length := List.length_pos.mpr hne
  have hrev : ∃ t, s.reverse = a :: t := by
    rw [List.getLast?_eq_head?_reverse] at ha
    cases hr : s.reverse with
    | nil => rw [hr] at ha; simp at ha
    | cons b t =>
      rw [hr] at ha
      simp only [List.head?_cons, Option.some.injEq] at ha
      exact ⟨t, by rw [ha]⟩
  obtain ⟨t, ht⟩ := hrev
  rcases trimLeftSpace_eq_or_lt s.length s with hl | hl
  · have hstep : trimRightSpace s.length s
        = trimRightSpace (s.length - 1) (s.take (s.length - 1)) := by
      have hw : spaceWidthEnd s = 1 := by simp [spaceWidthEnd, ht, hsp]
      have hm : s.length = (s.length - 1) + 1 := by omega
      rw [hm, trimRightSpace_succ, hw]
      simp
    have h2 := trimRightSpace_length_le (s.length - 1) (s.take (s.length - 1))
    have h3 : (s.take (s.length - 1)).length < s.length := by
      rw [List.length_take]
      omega
    have h4 : (TrimSpace s).length < s.length := by
      unfold TrimSpace
      simp only [hl, hstep]
      omega
    rw [h] at h4
    exact absurd h4 (lt_irrefl _)
  · have h2 := trimRightSpace_length_le (trimLeftSpace s.length s).length
      (trimLeftSpace s.length s)
    have h4 : (TrimSpace s).length < s.length := by
      unfold TrimSpace
      simp only
      omega
    rw [h] at h4
    exact absurd h4 (lt_irrefl _)

/-- A space in front does not change what `TrimSpace` returns. -/
theorem TrimSpace_space_cons (v : List Byte) : TrimSpace (SP :: v) = TrimSpace v := by
  have h1 : trimLeftSpace (SP :: v).length (SP :: v) = trimLeftSpace v.length v := by
    simp [trimLeftSpace, spaceWidth, asciiSpace, SP]
  unfold TrimSpace
  simp only [h1]

/-! ## The header loop on written header blocks -/

/-- Both cutsets hold the line feed, and nothing but ASCII white space other than the
space and the colon. -/
theorem lineCutset_spec (cutset : List Byte) (h : lineCutset cutset) :
    LF ∈ cutset ∧ SP ∉ cutset ∧ COLON ∉ cutset ∧ ∀ a ∈ cutset, asciiSpace a = true := by
  rcases h with h | h <;> subst h <;> decide

/-- The loop equation of `headerLoop`: a complete line is handed to `headerStep`, and
the loop stops, fails or goes on with the next line as the step says. -/
theorem headerLoop_line (cutset : List Byte) (tail : StreamEnd) (pending : List Byte)
    (hs : Headers) (line rest : List Byte) (h : LF ∉ line) :
    headerLoop cutset tail pending hs (line ++ LF :: rest)
      = match headerStep cutset hs (pending.reverse ++ line ++ [LF]) with
        | .stop => .done hs rest
        | .fail e => .fail e
        | .next hs' => headerLoop cutset tail [] hs' rest := by
  induction line generalizing pending with
  | nil => simp [headerLoop]
  | cons b bs ih =>
    have hb : ¬ b = LF := fun e => h (by simp [e])
    have hbs : LF ∉ bs := fun e => h (List.mem_cons_of_mem _ e)
    simp only [List.cons_append, headerLoop, hb, if_false, List.append_eq]
    rw [ih (b :: pending) hbs]
    simp

/-- The blank line stops the loop. -/
theorem headerStep_blank (cutset : List Byte) (hcut : lineCutset cutset) (hs : Headers) :
    headerStep cutset hs [LF] = .stop := by
  rcases hcut with h | h <;> subst h <;> rfl

/-- The line written for a clean header stores that header. -/
theorem headerStep_header (cutset : List Byte) (hcut : lineCutset cutset) (hs : Headers)
    (h : List Byte × List Byte) (hclean : cleanHeader h) :
    headerStep cutset hs (h.1 ++ [COLON, SP] ++ h.2 ++ [LF]) = .next (hs.set h.1 h.2) := by
  obtain ⟨hLF, hSP, hCOLON, hspace⟩ := lineCutset_spec cutset hcut
  obtain ⟨hc1, _, hc2, _, ht1, ht2⟩ := hclean
  have hnot : ∀ a, asciiSpace a = false → a ∉ cutset := by
    intro a ha hmem
    rw [hspace a hmem] at ha
    exact Bool.noConfusion ha
  have hfirst : ∀ a, (h.1 ++ [COLON, SP] ++ h.2).head? = some a → a ∉ cutset := by
    intro a ha
    cases h1 : h.1 with
    | nil =>
      rw [h1] at ha
      simp only [List.nil_append, List.cons_append, List.head?_cons, Option.some.injEq] at ha
      rw [← ha]
      exact hCOLON
    | cons b t =>
      rw [h1] at ha
      simp only [List.cons_append, List.head?_cons, Option.some.injEq] at ha
      rw [← ha]
      exact hnot b (head_not_space_of_TrimSpace_eq h.1 ht1 b (by rw [h1]; rfl))
  have hlast : ∀ a, (h.1 ++ [COLON, SP] ++ h.2).getLast? = some a → a ∉ cutset := by
    intro a ha
    by_cases h2 : h.2 = []
    · rw [h2] at ha
      simp only [List.append_nil] at ha
      have : (h.1 ++ [COLON, SP]).getLast? = some SP := by
        rw [show h.1 ++ [COLON, SP] = (h.1 ++ [COLON]) ++ [SP] by simp]
        exact List.getLast?_append_cons _ _ _ |>.trans (by simp)
      rw [this] at ha
      simp only [Option.some.injEq] at ha
      rw [← ha]
      exact hSP
    · have : (h.1 ++ [COLON, SP] ++ h.2).getLast? = h.2.getLast? :=
        List.getLast?_append_of_ne_nil _ h2
      rw [this] at ha
      exact hnot a (last_not_space_of_TrimSpace_eq h.2 ht2 a ha)
  have hne : h.1 ++ [COLON, SP] ++ h.2 ≠ [] := by simp
  have hsplit : Split (h.1 ++ [COLON, SP] ++ h.2) COLON = [h.1, SP :: h.2] := by
    rw [show h.1 ++ [COLON, SP] ++ h.2 = h.1 ++ COLON :: (SP :: h.2) by simp,
      Split_append_sep _ _ _ hc1, Split_of_not_mem]
    simp only [List.mem_cons, not_or]
    exact ⟨by decide, hc2⟩
  unfold headerStep
  simp only [Trim_line _ cutset hLF hfirst hlast, Trim_self _ cutset hfirst hlast, hne,
    if_false, hsplit]
  simp [TrimSpace_space_cons, ht1, ht2]

/-- The loop over the block written for clean headers stores them one after the other
and stops at the blank line; what follows the blank line is left for the body. -/
theorem headerLoop_block (cutset : List Byte) (hcut : lineCutset cutset) (tail : StreamEnd)
    (block : Headers) (hs : Headers) (rest : List Byte)
    (hclean : ∀ h ∈ block, cleanHeader h) :
    headerLoop cutset tail [] hs (headerBlock block ++ LF :: rest)
      = .done (block.foldl (fun m h => m.set h.1 h.2) hs) rest := by
  induction block generalizing hs with
  | nil =>
    have := headerLoop_line cutset tail [] hs [] rest (by simp)
    simp only [List.nil_append, List.reverse_nil] at this
    simp only [headerBlock, List.map_nil, List.flatten_nil, List.nil_append, List.foldl_nil]
    rw [this, headerStep_blank cutset hcut]
  | cons h block ih =>
    have hc := hclean h (List.mem_cons_self _ _)
    have hno : LF ∉ h.1 ++ [COLON, SP] ++ h.2 := by
      obtain ⟨_, h1, _, h2, _, _⟩ := hc
      simp only [List.mem_append, List.mem_cons, List.mem_singleton, List.not_mem_nil,
        or_false, not_or]
      exact ⟨⟨h1, by decide, by decide⟩, h2⟩
    have hform : headerBlock (h :: block) ++ LF :: rest
        = (h.1 ++ [COLON, SP] ++ h.2) ++ LF :: (headerBlock block ++ LF :: rest) := by
      simp [headerBlock, headerLine]
    rw [hform, headerLoop_line cutset tail [] hs _ _ hno]
    simp only [List.reverse_nil, List.nil_append]
    rw [headerStep_header cutset hcut hs h hc]
    simp only [List.foldl_cons]
    exact ih _ (fun h' hh' => hclean h' (List.mem_cons_of_mem _ hh'))

/-! ## The header map -/

/-- A name that the map does not hold is not found. -/
theorem Headers.get_of_not_mem (m : Headers) (k : List Byte) (h : k ∉ Headers.keys m) :
    Headers.get m k = none := by
  induction m with
  | nil => rfl
  | cons e m ih =>
    obtain ⟨k', v'⟩ := e
    simp only [Headers.keys, List.map_cons, List.mem_cons, not_or] at h
    have hne : ¬ k' = k := fun e => h.1 e.symm
    simp only [Headers.get, hne, if_false]
    exact ih h.2

/-- Assigning to a name that the map does not hold adds the entry at the end. -/
theorem Headers.set_of_not_mem (m : Headers) (k v : List Byte) (h : k ∉ Headers.keys m) :
    Headers.set m k v = m ++ [(k, v)] := by
  induction m with
  | nil => rfl
  | cons e m ih =>
    obtain ⟨k', v'⟩ := e
    simp only [Headers.keys, List.map_cons, List.mem_cons, not_or] at h
    have hne : ¬ k' = k := fun e => h.1 e.symm
    simp only [Headers.set, hne, if_false, List.cons_append]
    rw [ih h.2]

/-- The entry added at the end under a new name is found under that name. -/
theorem Headers.get_append_new (m : Headers) (k v : List Byte) (h : k ∉ Headers.keys m) :
    Headers.get (m ++ [(k, v)]) k = some v := by
  induction m with
  | nil => simp [Headers.get]
  | cons e m ih =>
    obtain ⟨k', v'⟩ := e
    simp only [Headers.keys, List.map_cons, List.mem_cons, not_or] at h
    have hne : ¬ k' = k := fun e => h.1 e.symm
    simp only [List.cons_append, Headers.get, hne, if_false]
    exact ih h.2

/-- Storing headers of pairwise different names, none of them in the map yet, one
after the other gives the map followed by those headers. -/
theorem foldl_set_of_nodup (hs m : Headers) (h : (Headers.keys (m ++ hs)).Nodup) :
    hs.foldl (fun m h => Headers.set m h.1 h.2) m = m ++ hs := by
  induction hs generalizing m with
  | nil => simp
  | cons e hs ih =>
    have hnot : e.1 ∉ Headers.keys m := by
      simp only [Headers.keys, List.map_append, List.map_cons] at h
      have := (List.nodup_append.mp h).2.2
      intro hmem
      exact this hmem (List.mem_cons_self _ _)
    simp only [List.foldl_cons]
    rw [Headers.set_of_not_mem m e.1 e.2 hnot]
    have h' : (Headers.keys ((m ++ [(e.1, e.2)]) ++ hs)).Nodup := by
      simpa using h
    rw [ih _ h']
    simp

/-- The block of two mappings in a row is the two blocks in a row. -/
theorem headerBlock_append (a b : Headers) :
    headerBlock (a ++ b) = headerBlock a ++ headerBlock b := by
  simp [headerBlock]

/-! ## Numerals as header values -/

/-- A string that begins with a byte below 0x80 has no prefix that begins with a byte
from 0x80 on. -/
theorem not_isPrefixOf_of_ascii (w : List Byte) (b : Byte) (t : List Byte) (hb : b < 128)
    (hw : (match w with | [] => false | c :: _ => decide (128 ≤ c)) = true) :
    w.isPrefixOf (b :: t) = false := by
  cases w with
  | nil => simp at hw
  | cons c rest =>
    simp only [decide_eq_true_eq] at hw
    have hne : (c == b) = false := by
      rw [beq_eq_false_iff_ne]
      intro e
      unfold Byte at *
      omega
    simp [List.isPrefixOf, hne]

/-- A byte below 0x80 that is not ASCII white space does not begin a white-space rune. -/
theorem spaceWidth_of_ascii (b : Byte) (t : List Byte) (hb : b < 128)
    (hsp : asciiSpace b = false) : spaceWidth (b :: t) = 0 := by
  have hall : wideSpaces.all
      (fun w => match w with | [] => false | c :: _ => decide (128 ≤ c)) = true := by decide
  have hnone : wideSpaces.find? (fun w => w.isPrefixOf (b :: t)) = none := by
    rw [List.find?_eq_none]
    intro w hw
    rw [not_isPrefixOf_of_ascii w b t hb (List.all_eq_true.mp hall w hw)]
    exact Bool.false_ne_true
  simp [spaceWidth, hsp, hnone]

/-- A string that ends in a byte below 0x80 that is not ASCII white space does not end
in a white-space rune. -/
theorem spaceWidthEnd_of_ascii (s : List Byte) (b : Byte) (t : List Byte)
    (hs : s.reverse = b :: t) (hb : b < 128) (hsp : asciiSpace b = false) :
    spaceWidthEnd s = 0 := by
  have hall : wideSpaces.all
      (fun w => match w.reverse with | [] => false | c :: _ => decide (128 ≤ c)) = true := by
    decide
  have hnone : wideSpaces.find? (fun w => w.reverse.isPrefixOf s.reverse) = none := by
    rw [List.find?_eq_none]
    intro w hw
    rw [hs, not_isPrefixOf_of_ascii w.reverse b t hb (List.all_eq_true.mp hall w hw)]
    exact Bool.false_ne_true
  rw [hs] at hnone
  simp [spaceWidthEnd, hs, hsp, hnone]

/-- A string that begins and ends with a byte below 0x80 that is not ASCII white space
is left unchanged by `TrimSpace`. -/
theorem TrimSpace_of_ascii_ends (s : List Byte)
    (hfirst : ∀ a, s.head? = some a → a < 128 ∧ asciiSpace a = false)
    (hlast : ∀ a, s.getLast? = some a → a < 128 ∧ asciiSpace a = false) :
    TrimSpace s = s := by
  cases s with
  | nil => rfl
  | cons b t =>
    obtain ⟨hb, hsp⟩ := hfirst b rfl
    have hl : trimLeftSpace (b :: t).length (b :: t) = b :: t := by
      rw [List.length_cons, trimLeftSpace_succ, spaceWidth_of_ascii b t hb hsp]
      rfl
    cases hr : (b :: t).reverse with
    | nil => simp at hr
    | cons c u =>
      have hc : (b :: t).getLast? = some c := by
        rw [List.getLast?_eq_head?_reverse, hr]
        rfl
      obtain ⟨hcb, hcsp⟩ := hlast c hc
      have hrt : trimRightSpace (b :: t).length (b :: t) = b :: t := by
        rw [List.length_cons, trimRightSpace_succ,
          spaceWidthEnd_of_ascii (b :: t) c u hr hcb hcsp]
        rfl
      unfold TrimSpace
      simp only [hl, hrt]

/-- A decimal digit is below 0x80 and is not white space, a colon or a line end. -/
theorem isDigit_plain (c : Byte) (h : isDigit c) :
    c < 128 ∧ asciiSpace c = false ∧ c ≠ COLON ∧ c ≠ LF ∧ c ≠ SP ∧ c ≠ CR := by
  unfold isDigit at h
  unfold COLON LF SP CR
  unfold Byte at *
  have h1 : c ≠ 9 := by omega
  have h2 : c ≠ 10 := by omega
  have h3 : c ≠ 11 := by omega
  have h4 : c ≠ 12 := by omega
  have h5 : c ≠ 13 := by omega
  have h6 : c ≠ 32 := by omega
  have h7 : c ≠ 58 := by omega
  refine ⟨by omega, ?_, h7, h2, h6, h5⟩
  simp [asciiSpace, h1, h2, h3, h4, h5, h6]

/-- The header "Content-Length: n" that the writers add reads back as written. -/
theorem cleanHeader_contentLength (n : Nat) : cleanHeader (contentLengthKey, Itoa n) := by
  obtain ⟨hne, hdig, _⟩ := Itoa_spec n
  have hno : ∀ b : Byte, (∀ c, isDigit c → c ≠ b) → b ∉ Itoa n :=
    fun b hb hmem => hb b (hdig b hmem) rfl
  have k1 : COLON ∉ contentLengthKey := by decide
  have k2 : LF ∉ contentLengthKey := by decide
  have k3 : TrimSpace contentLengthKey = contentLengthKey := by decide
  refine ⟨k1, k2, ?_, ?_, k3, ?_⟩
  · exact hno COLON (fun c hc => (isDigit_plain c hc).2.2.1)
  · exact hno LF (fun c hc => (isDigit_plain c hc).2.2.2.1)
  · apply TrimSpace_of_ascii_ends
    · intro a ha
      have := isDigit_plain a (hdig a (List.mem_of_mem_head? ha))
      exact ⟨this.1, this.2.1⟩
    · intro a ha
      have := isDigit_plain a (hdig a (List.mem_of_mem_getLast? ha))
      exact ⟨this.1, this.2.1⟩

/-! ## Reading back what the writers write: heads -/

/-- The bytes `writeRequest` produces, as a request line, a header block and a body. -/
theorem writeRequest_eq {M S : Type} (V : Vocab M S) (r : Request M) :
    writeRequest V r
      = (ToUpper (V.methodString r.Method) ++ [SP] ++ r.RequestURI ++ [SP] ++ r.protocol)
        ++ LF :: (headerBlock (writtenHeaders r.Headers r.Body) ++ LF :: r.Body) := by
  by_cases hb : r.Body.length > 0
  · simp [writeRequest, writtenHeaders, hb, headerBlock_append, headerBlock, headerLine,
      contentLengthLine]
  · have he : r.Body = [] := List.length_eq_zero.mp (by omega)
    simp [writeRequest, writtenHeaders, he]

/-- The bytes `writeResponse` produces, as a status line, a header block and a body. -/
theorem writeResponse_eq {M S : Type} (V : Vocab M S) (r : Response S) :
    writeResponse V r
      = (r.protocol ++ [SP] ++ fmtInt (V.statusCode r.Status) ++ [SP]
          ++ V.statusString r.Status)
        ++ LF :: (headerBlock (writtenHeaders r.Headers r.Body) ++ LF :: r.Body) := by
  by_cases hb : r.Body.length > 0
  · simp [writeResponse, writtenHeaders, hb, headerBlock_append, headerBlock, headerLine,
      contentLengthLine]
  · have he : r.Body = [] := List.length_eq_zero.mp (by omega)
    simp [writeResponse, writtenHeaders, he]

/-- The head of a request made of clean fields and clean headers of pairwise different
names reads back as it is. -/
theorem requestHead_written {M S : Type} (V : Vocab M S) (tok uri proto : List Byte)
    (block : Headers) (rest : List Byte) (tail : StreamEnd) (m : M)
    (htok : cleanField tok) (huri : cleanField uri) (hproto : cleanField proto)
    (hm : V.getMethod tok = some m)
    (hclean : ∀ h ∈ block, cleanHeader h) (hnodup : (Headers.keys block).Nodup) :
    requestHead V
        { data := (tok ++ [SP] ++ uri ++ [SP] ++ proto)
            ++ LF :: (headerBlock block ++ LF :: rest),
          tail := tail }
      = some ({ Method := m, RequestURI := uri, protocol := proto, Headers := block,
                Body := [] }, rest) := by
  obtain ⟨ht1, ht2, ht3⟩ := htok
  obtain ⟨hu1, hu2, hu3⟩ := huri
  obtain ⟨hp1, hp2, hp3⟩ := hproto
  have hmem : ∀ a ∈ tok ++ [SP] ++ uri ++ [SP] ++ proto, a ∉ [CR, LF] := by
    intro a ha
    simp only [List.mem_append, List.mem_singleton] at ha
    simp only [List.mem_cons, List.mem_singleton, List.not_mem_nil, or_false, not_or]
    rcases ha with (((h | h) | h) | h) | h
    · exact ⟨fun e => ht2 (e ▸ h), fun e => ht3 (e ▸ h)⟩
    · subst h; exact ⟨by decide, by decide⟩
    · exact ⟨fun e => hu2 (e ▸ h), fun e => hu3 (e ▸ h)⟩
    · subst h; exact ⟨by decide, by decide⟩
    · exact ⟨fun e => hp2 (e ▸ h), fun e => hp3 (e ▸ h)⟩
  have hLF : LF ∉ tok ++ [SP] ++ uri ++ [SP] ++ proto := by
    intro h
    exact hmem LF h (by decide)
  have htrim : Trim ((tok ++ [SP] ++ uri ++ [SP] ++ proto) ++ [LF]) [CR, LF]
      = tok ++ [SP] ++ uri ++ [SP] ++ proto :=
    Trim_line _ _ (by decide) (fun a ha => hmem a (List.mem_of_mem_head? ha))
      (fun a ha => hmem a (List.mem_of_mem_getLast? ha))
  have hloop := headerLoop_block [CR, LF] (Or.inl rfl) tail block [] rest hclean
  rw [foldl_set_of_nodup block [] (by simpa using hnodup)] at hloop
  unfold requestHead
  simp only [ReadString_line _ _ hLF, htrim, Split_three tok uri proto SP ht1 hu1 hp1]
  simp [hm, hloop]

/-- The head of a response made of plain fields, the numeral of a known status and
clean headers of pairwise different names reads back as it is. -/
theorem responseHead_written {M S : Type} (V : Vocab M S) (proto code phrase : List Byte)
    (block : Headers) (rest : List Byte) (tail : StreamEnd) (n : Int) (st : S)
    (hproto : plainField proto) (hcode : plainField code) (hphrase : plainField phrase)
    (hn : Atoi code = .ok n) (hst : V.getStatus n = some st)
    (hclean : ∀ h ∈ block, cleanHeader h) (hnodup : (Headers.keys block).Nodup) :
    responseHead V
        { data := (proto ++ [SP] ++ code ++ [SP] ++ phrase)
            ++ LF :: (headerBlock block ++ LF :: rest),
          tail := tail }
      = some ({ protocol := proto, Status := st, Headers := block, Body := [] }, rest) := by
  obtain ⟨hp1, hp3⟩ := hproto
  obtain ⟨hc1, hc3⟩ := hcode
  obtain ⟨hr1, hr3⟩ := hphrase
  have hmem : ∀ a ∈ proto ++ [SP] ++ code ++ [SP] ++ phrase, a ∉ [LF] := by
    intro a ha
    simp only [List.mem_append, List.mem_singleton] at ha
    simp only [List.mem_singleton]
    rcases ha with (((h | h) | h) | h) | h
    · exact fun e => hp3 (e ▸ h)
    · subst h; decide
    · exact fun e => hc3 (e ▸ h)
    · subst h; decide
    · exact fun e => hr3 (e ▸ h)
  have hLF : LF ∉ proto ++ [SP] ++ code ++ [SP] ++ phrase := by
    intro h
    exact hmem LF h (by decide)
  have htrim : Trim ((proto ++ [SP] ++ code ++ [SP] ++ phrase) ++ [LF]) [LF]
      = proto ++ [SP] ++ code ++ [SP] ++ phrase :=
    Trim_line _ _ (by decide) (fun a ha => hmem a (List.mem_of_mem_head? ha))
      (fun a ha => hmem a (List.mem_of_mem_getLast? ha))
  have hloop := headerLoop_block [LF] (Or.inr rfl) tail block [] rest hclean
  rw [foldl_set_of_nodup block [] (by simpa using hnodup)] at hloop
  unfold responseHead
  simp only [ReadString_line _ _ hLF, htrim, Split_three proto code phrase SP hp1 hc1 hr1]
  simp [hn, hst, hloop]

/-! ## Round trips (C1, C2) -/

/-- The numeral that `%d` prints has no space and no line feed. -/
theorem fmtInt_plain (i : Int) : plainField (fmtInt i) := by
  have hd : ∀ c ∈ Itoa i.natAbs, c ≠ SP ∧ c ≠ LF := fun c hc =>
    ⟨(isDigit_plain c ((Itoa_spec _).2.1 c hc)).2.2.2.2.1,
     (isDigit_plain c ((Itoa_spec _).2.1 c hc)).2.2.2.1⟩
  unfold plainField fmtInt
  split
  · simp only [List.mem_cons, not_or]
    exact ⟨⟨by decide, fun h => (hd SP h).1 rfl⟩, ⟨by decide, fun h => (hd LF h).2 rfl⟩⟩
  · exact ⟨fun h => (hd SP h).1 rfl, fun h => (hd LF h).2 rfl⟩

/-- The headers on the wire are clean and of pairwise different names when those of
the mapping are and none of them is named Content-Length. -/
theorem writtenHeaders_clean (hs : Headers) (body : List Byte)
    (hclean : ∀ h ∈ hs, cleanHeader h) (hnodup : (Headers.keys hs).Nodup)
    (hnocl : contentLengthKey ∉ Headers.keys hs) :
    (∀ h ∈ writtenHeaders hs body, cleanHeader h)
      ∧ (Headers.keys (writtenHeaders hs body)).Nodup := by
  unfold writtenHeaders
  by_cases hb : body.length > 0
  · simp only [hb, if_true]
    constructor
    · intro h hh
      rcases List.mem_append.mp hh with h1 | h1
      · exact hclean h h1
      · simp only [List.mem_singleton] at h1
        subst h1
        exact cleanHeader_contentLength _
    · simp only [Headers.keys, List.map_append, List.map_cons, List.map_nil]
      rw [List.nodup_append]
      refine ⟨hnodup, by simp, ?_⟩
      intro a ha hb'
      simp only [List.mem_singleton] at hb'
      subst hb'
      exact hnocl ha
  · simp only [hb, if_false, List.append_nil]
    exact ⟨hclean, hnodup⟩

/-- C1, as stated, fails: a request with the body "abc" reads back with a header the
request does not have, "Content-Length: 3"; and a request whose ASCII request URI holds
a space does not read back at all (its request line has four fields). -/
theorem readRequest_writeRequest_differs :
    readRequest specVocab (Stream.ofBytes (writeRequest specVocab bodyRequest))
        = .ret (some bodyRequestRead) none
      ∧ Headers.get bodyRequest.Headers contentLengthKey = none
      ∧ Headers.get bodyRequestRead.Headers contentLengthKey = some (ascii "3")
      ∧ readRequest specVocab (Stream.ofBytes (writeRequest specVocab spaceUriRequest))
        = .ret none (some (.requestLine (ascii "DESCRIBE rtsp://x/a b RTSP/1.0"))) := by
  decide

/-- C1, amended: let `r` be a Request whose method is written as a token that
`getMethod` resolves back to it, whose method token, request URI and protocol version
have no space, carriage return or line feed, whose header names (pairwise different,
none of them Content-Length) and values have no colon, no line feed and no surrounding
white space, and whose body is within the allocation limit. Then `readRequest` on the
bytes `writeRequest` produces for `r` succeeds and returns `r` with the same method,
request URI, protocol version and body, and with the headers of `r` followed, when the
body is non-empty, by the header Content-Length with the decimal body length. -/
theorem readRequest_writeRequest {M S : Type} (V : Vocab M S) (r : Request M)
    (hmethod : V.getMethod (ToUpper (V.methodString r.Method)) = some r.Method)
    (htoken : cleanField (ToUpper (V.methodString r.Method)))
    (huri : cleanField r.RequestURI) (hproto : cleanField r.protocol)
    (hclean : ∀ h ∈ r.Headers, cleanHeader h)
    (hnodup : (Headers.keys r.Headers).Nodup)
    (hnocl : contentLengthKey ∉ Headers.keys r.Headers)
    (hbody : r.Body.length ≤ maxAlloc) :
    readRequest V (Stream.ofBytes (writeRequest V r))
      = .ret (some { r with Headers := writtenHeaders r.Headers r.Body }) none := by
  obtain ⟨hc, hn⟩ := writtenHeaders_clean r.Headers r.Body hclean hnodup hnocl
  have hhead := requestHead_written V _ _ _ (writtenHeaders r.Headers r.Body) r.Body .eof
    r.Method htoken huri hproto hmethod hc hn
  have hstream : Stream.ofBytes (writeRequest V r)
      = { data := (ToUpper (V.methodString r.Method) ++ [SP] ++ r.RequestURI ++ [SP]
            ++ r.protocol) ++ LF :: (headerBlock (writtenHeaders r.Headers r.Body)
            ++ LF :: r.Body),
          tail := .eof } := by
    rw [Stream.ofBytes, writeRequest_eq]
  rw [hstream, readRequest_of_head V _ _ _ hhead]
  by_cases hb : r.Body.length > 0
  · have hget : Headers.get (writtenHeaders r.Headers r.Body) contentLengthKey
        = some (Itoa r.Body.length) := by
      simp only [writtenHeaders, hb, if_true]
      exact Headers.get_append_new _ _ _ hnocl
    have hmax : (r.Body.length : Int) ≤ (maxAlloc : Int) := by exact_mod_cast hbody
    have hlt : r.Body.length < 2 ^ 63 := by
      have : maxAlloc = 2 ^ 48 := rfl
      omega
    have hres := requestBody_enough
      ({ Method := r.Method, RequestURI := r.RequestURI, protocol := r.protocol,
         Headers := writtenHeaders r.Headers r.Body, Body := [] } : Request M)
      r.Body (Itoa r.Body.length) .eof (r.Body.length : Int) hget
      (Atoi_Itoa _ hlt) (by omega) (le_refl _) hmax
    rw [hres]
    simp
  · have he : r.Body = [] := List.length_eq_zero.mp (by omega)
    have hget : Headers.get (writtenHeaders r.Headers r.Body) contentLengthKey = none := by
      simp only [writtenHeaders, hb, if_false, List.append_nil]
      exact Headers.get_of_not_mem _ _ hnocl
    unfold requestBody
    simp only [hget]
    rw [he]

/-- Witness for `readRequest_writeRequest`: an ANNOUNCE request with two headers and a
body of five bytes. -/
theorem readRequest_writeRequest_witness :
    (∀ h ∈ announceRequest.Headers, cleanHeader h)
      ∧ announceRequest.Body.length ≤ maxAlloc
      ∧ readRequest specVocab (Stream.ofBytes (writeRequest specVocab announceRequest))
        = .ret (some { announceRequest with
            Headers := announceRequest.Headers ++ [(ascii "Content-Length", ascii "5")] })
          none :=
  ⟨by unfold cleanHeader; decide, by decide,
   readRequest_writeRequest specVocab announceRequest (by decide)
     (by unfold cleanField; decide) (by unfold cleanField; decide)
     (by unfold cleanField; decide) (by unfold cleanHeader; decide) (by decide)
     (by decide) (by decide)⟩

/-- C2, as stated, fails: the response with status 404 is written with the reason
phrase "Not Found" and does not read back (its status line has four fields); and a
response with the body "abc" reads back with a header it does not have,
"Content-Length: 3". -/
theorem readResponse_writeResponse_differs :
    readResponse specVocab (Stream.ofBytes (writeResponse specVocab notFoundResponse))
        = .ret none (some (.statusLine (ascii "RTSP/1.0 404 Not Found")))
      ∧ readResponse specVocab (Stream.ofBytes (writeResponse specVocab bodyResponse))
        = .ret (some bodyResponseRead) none
      ∧ Headers.get bodyResponse.Headers contentLengthKey = none
      ∧ Headers.get bodyResponseRead.Headers contentLengthKey = some (ascii "3") := by
  decide

/-- C2, amended: let `r` be a Response whose status is one that `getStatus` resolves
back from its code (a 64-bit integer), whose protocol version and reason phrase have
no space and no line feed, whose header names (pairwise different, none of them
Content-Length) and values have no colon, no line feed and no surrounding white space,
and whose body is within the allocation limit. Then `readResponse` on the bytes
`writeResponse` produces for `r` succeeds and returns `r` with the same status,
protocol version and body, and with the headers of `r` followed, when the body is
non-empty, by the header Content-Length with the decimal body length. -/
theorem readResponse_writeResponse {M S : Type} (V : Vocab M S) (r : Response S)
    (hstatus : V.getStatus (V.statusCode r.Status) = some r.Status)
    (hlo : -(2 ^ 63 : Int) ≤ V.statusCode r.Status)
    (hhi : V.statusCode r.Status < (2 ^ 63 : Int))
    (hproto : plainField r.protocol) (hphrase : plainField (V.statusString r.Status))
    (hclean : ∀ h ∈ r.Headers, cleanHeader h)
    (hnodup : (Headers.keys r.Headers).Nodup)
    (hnocl : contentLengthKey ∉ Headers.keys r.Headers)
    (hbody : r.Body.length ≤ maxAlloc) :
    readResponse V (Stream.ofBytes (writeResponse V r))
      = .ret (some { r with Headers := writtenHeaders r.Headers r.Body }) none := by
  obtain ⟨hc, hn⟩ := writtenHeaders_clean r.Headers r.Body hclean hnodup hnocl
  have hhead := responseHead_written V r.protocol (fmtInt (V.statusCode r.Status))
    (V.statusString r.Status) (writtenHeaders r.Headers r.Body) r.Body .eof
    (V.statusCode r.Status) r.Status hproto (fmtInt_plain _) hphrase
    (Atoi_fmtInt _ hlo hhi) hstatus hc hn
  have hstream : Stream.ofBytes (writeResponse V r)
      = { data := (r.protocol ++ [SP] ++ fmtInt (V.statusCode r.Status) ++ [SP]
            ++ V.statusString r.Status) ++ LF :: (headerBlock (writtenHeaders r.Headers r.Body)
            ++ LF :: r.Body),
          tail := .eof } := by
    rw [Stream.ofBytes, writeResponse_eq]
  rw [hstream, readResponse_of_head V _ _ _ hhead]
  by_cases hb : r.Body.length > 0
  · have hget : Headers.get (writtenHeaders r.Headers r.Body) contentLengthKey
        = some (Itoa r.Body.length) := by
      simp only [writtenHeaders, hb, if_true]
      exact Headers.get_append_new _ _ _ hnocl
    have hmax : (r.Body.length : Int) ≤ (maxAlloc : Int) := by exact_mod_cast hbody
    have hlt : r.Body.length < 2 ^ 63 := by
      have : maxAlloc = 2 ^ 48 := rfl
      omega
    have hres := responseBody_enough
      ({ protocol := r.protocol, Status := r.Status,
         Headers := writtenHeaders r.Headers r.Body, Body := [] } : Response S)
      r.Body (Itoa r.Body.length) .eof (r.Body.length : Int) hget
      (Atoi_Itoa _ hlt) (by omega) (le_refl _) hmax
    rw [hres]
    simp
  · have he : r.Body = [] := List.length_eq_zero.mp (by omega)
    have hget : Headers.get (writtenHeaders r.Headers r.Body) contentLengthKey = none := by
      simp only [writtenHeaders, hb, if_false, List.append_nil]
      exact Headers.get_of_not_mem _ _ hnocl
    unfold responseBody
    simp only [hget]
    rw [he]

/-- Witness for `readResponse_writeResponse`: a 200 response with two headers and a body
of five bytes. -/
theorem readResponse_writeResponse_witness :
    (∀ h ∈ describeResponse.Headers, cleanHeader h)
      ∧ plainField (specVocab.statusString describeResponse.Status)
      ∧ readResponse specVocab (Stream.ofBytes (writeResponse specVocab describeResponse))
        = .ret (some { describeResponse with
            Headers := describeResponse.Headers ++ [(ascii "Content-Length", ascii "5")] })
          none :=
  ⟨by unfold cleanHeader; decide, by unfold plainField; decide,
   readResponse_writeResponse specVocab describeResponse (by decide) (by decide)
     (by decide) (by unfold plainField; decide) (by unfold plainField; decide)
     (by unfold cleanHeader; decide) (by decide) (by decide) (by decide)⟩

/-! ## Malformed Content-Length (C11, C12) -/

/-- Body step of `readRequest` on a Content-Length with a syntax error: the length is
taken as 0 and the Request is returned with a zero-length body and no error. -/
theorem requestBody_syntax_error {M : Type} (req : Request M) (after cl : List Byte)
    (tail : StreamEnd)
    (hcl : req.Headers.get contentLengthKey = some cl) (hn : Atoi cl = .errSyntax) :
    requestBody req after tail = .ret (some { req with Body := [] }) none := by
  have hm : makeSlice 0 = some [] := by decide
  unfold requestBody
  simp [hcl, hn, AtoiResult.value, hm, ReadFull]

/-- Function `readRequest` on a well-formed head whose Content-Length has a syntax
error: the Request is returned with a zero-length body and no error. -/
theorem readRequest_syntax_error_length {M S : Type} (V : Vocab M S) (r : Stream)
    (req : Request M) (after cl : List Byte)
    (hhead : requestHead V r = some (req, after))
    (hcl : req.Headers.get contentLengthKey = some cl) (hn : Atoi cl = .errSyntax) :
    readRequest V r = .ret (some { req with Body := [] }) none := by
  rw [readRequest_of_head V r req after hhead]
  exact requestBody_syntax_error req after cl r.tail hcl hn

/-- C11: for a Content-Length numeral out of range, `strconv.Atoi` reports an error and
hands back the largest `int`; `readRequest` ignores the error, asks `make` for that
many bytes and panics, where the claim has it return a Request with an empty body. -/
theorem readRequest_out_of_range_length_panics :
    Atoi (ascii "99999999999999999999") = .errRange (2 ^ 63 - 1)
      ∧ readRequest specVocab (Stream.ofBytes outOfRangeLengthRequest) = .panic := by
  decide

/-- C12: when the status line and header block are well-formed and the Content-Length
value does not parse as an integer (syntax or range error of `strconv.Atoi`),
`readResponse` returns an error and no Response, whatever bytes follow the blank
line: no body is read. -/
theorem readResponse_malformed_length {M S : Type} (V : Vocab M S) (r : Stream)
    (resp : Response S) (after cl : List Byte)
    (hhead : responseHead V r = some (resp, after))
    (hcl : resp.Headers.get contentLengthKey = some cl)
    (herr : (Atoi cl).isErr = true) :
    readResponse V r = .ret none (some (.contentLength cl)) := by
  rw [readResponse_of_head V r resp after hhead]
  unfold responseBody
  cases ha : Atoi cl with
  | ok n => rw [ha] at herr; cases herr
  | errSyntax => simp only [hcl, ha]
  | errRange c => simp only [hcl, ha]

/-- Witness for `readResponse_malformed_length`: the value "five". -/
theorem readResponse_malformed_length_witness :
    responseHead specVocab (Stream.ofBytes wordLengthResponse)
        = some (wordLengthResponseHead, ascii "abc")
      ∧ (Atoi (ascii "five")).isErr = true
      ∧ readResponse specVocab (Stream.ofBytes wordLengthResponse)
        = .ret none (some (.contentLength (ascii "five"))) :=
  ⟨by decide, by decide,
   readResponse_malformed_length specVocab (Stream.ofBytes wordLengthResponse)
     wordLengthResponseHead (ascii "abc") (ascii "five") (by decide) (by decide)
     (by decide)⟩

/-! ## Failing streams (C13) -/

/-- C13: when the stream fails with an I/O error other than end-of-stream while the
body is read, `readResponse` returns the Response and a nil error, so the failure is
swallowed; `readRequest` returns the error in the same situation. -/
theorem readResponse_swallows_read_error :
    readResponse specVocab brokenResponseStream = .ret (some brokenResponseResult) none
      ∧ readRequest specVocab brokenRequestStream
        = .ret none (some (.fullBody .readFault)) := by
  decide

/-! ## Closed vocabularies (C14) -/

/-- C14: on a first line of three space-separated fields, `readRequest` returns an
error and no Request when `getMethod` fails on the first field, and `readResponse`
returns an error and no Response when the second field is an integer on which
`getStatus` fails; no default method or status is substituted. -/
theorem unknown_token_rejected {M S : Type} (V : Vocab M S)
    (r r' : Stream) (line rest line' rest' : List Byte) (n : Int)
    (hline : ReadString r.data = some (line, rest))
    (hthree : (Split (Trim line [CR, LF]) SP).length = 3)
    (hmethod : V.getMethod ((Split (Trim line [CR, LF]) SP).getD 0 []) = none)
    (hline' : ReadString r'.data = some (line', rest'))
    (hthree' : (Split (Trim line' [LF]) SP).length = 3)
    (hint : Atoi ((Split (Trim line' [LF]) SP).getD 1 []) = .ok n)
    (hstatus : V.getStatus n = none) :
    readRequest V r = .ret none (some (.method ((Split (Trim line [CR, LF]) SP).getD 0 [])))
      ∧ readResponse V r' = .ret none (some (.status n)) := by
  constructor
  · unfold readRequest
    simp only [hline, hthree, ne_eq, not_true_eq_false, if_false, hmethod]
  · unfold readResponse
    simp only [hline', hthree', ne_eq, not_true_eq_false, if_false, hint, hstatus]

/-- Witness for `unknown_token_rejected`: the method FOO and the status code 999. -/
theorem unknown_token_rejected_witness :
    getMethod (ascii "FOO") = none ∧ getStatus 999 = none
      ∧ readRequest specVocab (Stream.ofBytes fooRequest)
        = .ret none (some (.method (ascii "FOO")))
      ∧ readResponse specVocab (Stream.ofBytes nopeResponse)
        = .ret none (some (.status 999)) :=
  ⟨by decide, by decide,
   (unknown_token_rejected specVocab (Stream.ofBytes fooRequest)
      (Stream.ofBytes nopeResponse) (ascii "FOO /stream RTSP/1.0\r\n") (ascii "\r\n")
      (ascii "RTSP/1.0 999 Nope\r\n") (ascii "\r\n") 999
      (by decide) (by decide) (by decide) (by decide) (by decide) (by decide)
      (by decide)).1,
   (unknown_token_rejected specVocab (Stream.ofBytes fooRequest)
      (Stream.ofBytes nopeResponse) (ascii "FOO /stream RTSP/1.0\r\n") (ascii "\r\n")
      (ascii "RTSP/1.0 999 Nope\r\n") (ascii "\r\n") 999
      (by decide) (by decide) (by decide) (by decide) (by decide) (by decide)
      (by decide)).2⟩

/-! ## Field count of the first line (C15) -/

/-- The number of fields is the number of separators plus one. -/
theorem Split_length (s : List Byte) (sep : Byte) :
    (Split s sep).length = s.count sep + 1 := by
  induction s with
  | nil => simp [Split]
  | cons b bs ih =>
    unfold Split
    by_cases hb : b = sep
    · simp [hb, ih]
    · have hne : (b == sep) = false := by simpa using hb
      simp only [hb, if_false]
      cases hs : Split bs sep with
      | nil => exact absurd hs (Split_ne_nil bs sep)
      | cons f fs =>
        rw [hs] at ih
        simp only [List.length_cons] at ih ⊢
        rw [List.count_cons, hne]
        simpa using ih

/-- Dropping leading bytes other than `a` leaves the number of `a` unchanged. -/
theorem count_dropWhile (p : Byte → Bool) (a : Byte) (l : List Byte)
    (hp : p a = false) : (l.dropWhile p).count a = l.count a := by
  induction l with
  | nil => rfl
  | cons b bs ih =>
    by_cases hb : p b = true
    · have hne : (b == a) = false := by
        rw [beq_eq_false_iff_ne]
        intro e
        rw [e, hp] at hb
        exact Bool.noConfusion hb
      rw [List.dropWhile_cons_of_pos hb, ih, List.count_cons, hne]
      simp
    · rw [List.dropWhile_cons_of_neg hb]

/-- Trimming by a cutset without the space leaves the number of spaces unchanged. -/
theorem count_Trim (s cutset : List Byte) (h : SP ∉ cutset) :
    (Trim s cutset).count SP = s.count SP := by
  have hp : (fun b => decide (b ∈ cutset)) SP = false := by simpa using h
  unfold Trim
  rw [List.count_reverse, count_dropWhile _ SP _ hp, List.count_reverse,
    count_dropWhile _ SP _ hp]

/-- The header loop fails with the error of the stream's end or with the error for a
header line, never with another one. -/
theorem headerLoop_fail_kind (cutset : List Byte) (tail : StreamEnd) (pending : List Byte)
    (hs : Headers) (data : List Byte) (e : Err)
    (h : headerLoop cutset tail pending hs data = .fail e) :
    e = endErr tail ∨ ∃ l, e = .header l := by
  induction data generalizing pending hs with
  | nil =>
    simp only [headerLoop, HeaderLoop.fail.injEq] at h
    exact Or.inl h.symm
  | cons b bs ih =>
    simp only [headerLoop] at h
    by_cases hb : b = LF
    · simp only [hb, if_true] at h
      cases hstep : headerStep cutset hs (pending.reverse ++ [LF]) with
      | stop => rw [hstep] at h; cases h
      | fail e' =>
        rw [hstep] at h
        simp only [HeaderLoop.fail.injEq] at h
        subst h
        right
        unfold headerStep at hstep
        simp only at hstep
        split at hstep
        · cases hstep
        · split at hstep
          · simp only [HeaderStep.fail.injEq] at hstep
            exact ⟨_, hstep.symm⟩
          · cases hstep
      | next hs' =>
        rw [hstep] at h
        exact ih [] hs' h
    · simp only [hb, if_false] at h
      exact ih (b :: pending) hs h

/-- The errors of the stream's end are not errors about a line. -/
theorem endErr_kind (tail : StreamEnd) :
    (∀ l, endErr tail ≠ .requestLine l) ∧ (∀ l, endErr tail ≠ .statusLine l)
      ∧ (∀ l, endErr tail ≠ .header l) := by
  cases tail <;> simp [endErr]

/-- C15: a first line that, trimmed of its line terminator, does not split on the
space into exactly three fields makes `readRequest` and `readResponse` return an error
and no message; a first line that splits into exactly three fields is never rejected
with the error for the field count. The number of fields is the number of spaces in
the line plus one, whichever line-end bytes are trimmed. -/
theorem first_line_field_count {M S : Type} (V : Vocab M S) (r : Stream)
    (line rest : List Byte) (hline : ReadString r.data = some (line, rest)) :
    ((Split (Trim line [CR, LF]) SP).length ≠ 3 →
        readRequest V r = .ret none (some (.requestLine (Trim line [CR, LF]))))
      ∧ ((Split (Trim line [LF]) SP).length ≠ 3 →
        readResponse V r = .ret none (some (.statusLine (Trim line [LF]))))
      ∧ ((Split (Trim line [CR, LF]) SP).length = 3 →
        ∀ l, readRequest V r ≠ .ret none (some (.requestLine l)))
      ∧ ((Split (Trim line [LF]) SP).length = 3 →
        ∀ l, readResponse V r ≠ .ret none (some (.statusLine l)))
      ∧ (Split (Trim line [CR, LF]) SP).length = line.count SP + 1
      ∧ (Split (Trim line [LF]) SP).length = line.count SP + 1 := by
  refine ⟨?_, ?_, ?_, ?_, ?_, ?_⟩
  · intro h
    unfold readRequest
    simp only [hline, h, ne_eq, not_false_eq_true, if_true]
  · intro h
    unfold readResponse
    simp only [hline, h, ne_eq, not_false_eq_true, if_true]
  · intro h l
    unfold readRequest
    simp only [hline, h, ne_eq, not_true_eq_false, if_false]
    cases V.getMethod ((Split (Trim line [CR, LF]) SP).getD 0 []) with
    | none => simp
    | some method =>
      simp only
      cases hl : headerLoop [CR, LF] r.tail [] [] rest with
      | fail e =>
        simp only [ne_eq, Outcome.ret.injEq, Option.some.injEq, true_and]
        intro he
        rcases headerLoop_fail_kind _ _ _ _ _ _ hl with h1 | ⟨l', h1⟩
        · exact (endErr_kind r.tail).1 l (h1 ▸ he)
        · rw [h1] at he; cases he
      | done headers rest' =>
        simp only
        split
        · simp
        · split
          · simp
          · split <;> [split; skip] <;> simp
  · intro h l
    unfold readResponse
    simp only [hline, h, ne_eq, not_true_eq_false, if_false]
    cases Atoi ((Split (Trim line [LF]) SP).getD 1 []) with
    | errSyntax => simp
    | errRange c => simp
    | ok statusNum =>
      simp only
      cases V.getStatus statusNum with
      | none => simp
      | some status =>
        simp only
        cases hl : headerLoop [LF] r.tail [] [] rest with
        | fail e =>
          simp only [ne_eq, Outcome.ret.injEq, Option.some.injEq, true_and]
          intro he
          rcases headerLoop_fail_kind _ _ _ _ _ _ hl with h1 | ⟨l', h1⟩
          · exact (endErr_kind r.tail).2.1 l (h1 ▸ he)
          · rw [h1] at he; cases he
        | done headers rest' =>
          simp only
          split
          · simp
          · split
            · simp
            · simp
            · split
              · simp
              · split <;> [split; skip] <;> simp
  · rw [Split_length, count_Trim _ _ (by decide)]
  · rw [Split_length, count_Trim _ _ (by decide)]

/-- Witness for `first_line_field_count`: the request line "OPTIONS  rtsp://x RTSP/1.0"
with two spaces in a row has four fields and is rejected. -/
theorem first_line_field_count_witness :
    (Split (Trim (ascii "OPTIONS  rtsp://x RTSP/1.0\r\n") [CR, LF]) SP).length = 4
      ∧ readRequest specVocab (Stream.ofBytes doubleSpaceRequest)
        = .ret none (some (.requestLine (ascii "OPTIONS  rtsp://x RTSP/1.0"))) :=
  ⟨by decide,
   (first_line_field_count specVocab (Stream.ofBytes doubleSpaceRequest)
      (ascii "OPTIONS  rtsp://x RTSP/1.0\r\n") (ascii "\r\n") (by decide)).1 (by decide)⟩

/-! ## Header lines without colon (C16) -/

/-- A line splits into fewer than two fields exactly when it has no separator. -/
theorem Split_length_lt_two (s : List Byte) (sep : Byte) :
    (Split s sep).length < 2 ↔ sep ∉ s := by
  rw [Split_length, ← List.count_eq_zero]
  omega

/-- A non-blank line with a colon is stored as a header. -/
theorem headerStep_colon (cutset : List Byte) (hs : Headers) (line : List Byte)
    (hblank : Trim (Trim line cutset) cutset ≠ [])
    (hcolon : COLON ∈ Trim line cutset) :
    ∃ hs', headerStep cutset hs line = .next hs' := by
  have h2 : ¬ (Split (Trim line cutset) COLON).length < 2 := by
    rw [Split_length_lt_two]
    exact fun h => h hcolon
  unfold headerStep
  simp only [hblank, if_false, h2]
  exact ⟨_, rfl⟩

/-- A non-blank line without colon is rejected. -/
theorem headerStep_no_colon (cutset : List Byte) (hs : Headers) (line : List Byte)
    (hblank : Trim (Trim line cutset) cutset ≠ [])
    (hcolon : COLON ∉ Trim line cutset) :
    headerStep cutset hs line = .fail (.header (Trim line cutset)) := by
  have h2 : (Split (Trim line cutset) COLON).length < 2 := by
    rw [Split_length_lt_two]
    exact hcolon
  unfold headerStep
  simp only [hblank, if_false, h2, if_true]

/-- A blank line stops the header loop. -/
theorem headerStep_stop (cutset : List Byte) (hs : Headers) (line : List Byte)
    (hblank : Trim (Trim line cutset) cutset = []) :
    headerStep cutset hs line = .stop := by
  unfold headerStep
  simp only [hblank, if_true]

/-- The header loop fails on a header line exactly when one of the non-blank lines
before the first blank line has no colon. -/
theorem headerLoop_header_error_iff (cutset : List Byte) (tail : StreamEnd)
    (pending : List Byte) (hs : Headers) (data : List Byte) :
    (∃ l, headerLoop cutset tail pending hs data = .fail (.header l))
      ↔ ∃ f ∈ headerFields cutset pending data, COLON ∉ f := by
  induction data generalizing pending hs with
  | nil =>
    simp only [headerLoop, headerFields, HeaderLoop.fail.injEq, List.not_mem_nil, false_and,
      exists_false, iff_false, not_exists]
    intro l h
    exact (endErr_kind tail).2.2 l h
  | cons b bs ih =>
    by_cases hb : b = LF
    · simp only [headerLoop, headerFields, hb, if_true]
      by_cases hblank : Trim (Trim (pending.reverse ++ [LF]) cutset) cutset = []
      · rw [headerStep_stop _ _ _ hblank]
        simp [hblank]
      · by_cases hcolon : COLON ∈ Trim (pending.reverse ++ [LF]) cutset
        · obtain ⟨hs', hstep⟩ := headerStep_colon cutset hs _ hblank hcolon
          rw [hstep]
          simp only [hblank, if_false, List.mem_cons, exists_eq_or_imp]
          rw [ih [] hs']
          constructor
          · intro h; exact Or.inr h
          · intro h
            rcases h with h | h
            · exact absurd hcolon h
            · exact h
        · rw [headerStep_no_colon _ _ _ hblank hcolon]
          simp only [hblank, if_false, List.mem_cons, exists_eq_or_imp]
          constructor
          · intro _; exact Or.inl hcolon
          · intro _; exact ⟨_, rfl⟩
    · simp only [headerLoop, headerFields, hb, if_false]
      exact ih (b :: pending) hs

/-- C16: with a well-formed request line, `readRequest` fails on a header line
(returns the error for an improper header and no Request) exactly when some non-blank
line before the terminating blank line has no colon; and every non-blank line with a
colon is accepted as a header by the loop. -/
theorem readRequest_header_error_iff {M S : Type} (V : Vocab M S) (r : Stream)
    (line rest : List Byte) (m : M)
    (hline : ReadString r.data = some (line, rest))
    (hthree : (Split (Trim line [CR, LF]) SP).length = 3)
    (hmethod : V.getMethod ((Split (Trim line [CR, LF]) SP).getD 0 []) = some m) :
    ((∃ l, readRequest V r = .ret none (some (.header l)))
        ↔ ∃ f ∈ headerFields [CR, LF] [] rest, COLON ∉ f)
      ∧ ∀ (hs : Headers) (l : List Byte), Trim (Trim l [CR, LF]) [CR, LF] ≠ [] →
          COLON ∈ Trim l [CR, LF] → ∃ hs', headerStep [CR, LF] hs l = .next hs' := by
  refine ⟨?_, fun hs l h1 h2 => headerStep_colon [CR, LF] hs l h1 h2⟩
  rw [← headerLoop_header_error_iff [CR, LF] r.tail [] [] rest]
  unfold readRequest
  simp only [hline, hthree, ne_eq, not_true_eq_false, if_false, hmethod]
  cases hl : headerLoop [CR, LF] r.tail [] [] rest with
  | fail e =>
    simp only [Outcome.ret.injEq, Option.some.injEq, true_and, HeaderLoop.fail.injEq]
  | done headers rest' =>
    simp only
    constructor
    · rintro ⟨l, h⟩
      exfalso
      revert h
      split
      · simp
      · split
        · simp
        · split <;> [split; skip] <;> simp
    · rintro ⟨l, h⟩
      cases h

/-- Witness for `readRequest_header_error_iff`: the line "BadHeaderNoColon" is
rejected. -/
theorem readRequest_header_error_iff_witness :
    ascii "BadHeaderNoColon" ∈ headerFields [CR, LF] []
        (ascii "CSeq: 1\r\nBadHeaderNoColon\r\n\r\n")
      ∧ COLON ∉ ascii "BadHeaderNoColon"
      ∧ ∃ l, readRequest specVocab (Stream.ofBytes badHeaderRequest)
          = .ret none (some (.header l)) :=
  ⟨by decide, by decide,
   (readRequest_header_error_iff specVocab (Stream.ofBytes badHeaderRequest)
      (ascii "OPTIONS rtsp://x RTSP/1.0\r\n") (ascii "CSeq: 1\r\nBadHeaderNoColon\r\n\r\n")
      Method.OPTIONS (by decide) (by decide) (by decide)).1.mpr
      ⟨ascii "BadHeaderNoColon", by decide, by decide⟩⟩

/-! ## Heads and results -/

/-- What a request head is made of: the request line, its three fields, the method the
vocabulary resolves, and the header map the loop returns; the body is still empty. -/
theorem requestHead_inv {M S : Type} (V : Vocab M S) (r : Stream) (req : Request M)
    (after : List Byte) (h : requestHead V r = some (req, after)) :
    ∃ line rest, ReadString r.data = some (line, rest)
      ∧ (Split (Trim line [CR, LF]) SP).length = 3
      ∧ V.getMethod ((Split (Trim line [CR, LF]) SP).getD 0 []) = some req.Method
      ∧ headerLoop [CR, LF] r.tail [] [] rest = .done req.Headers after
      ∧ req.Body = [] := by
  unfold requestHead at h
  cases hrs : ReadString r.data with
  | none => rw [hrs] at h; cases h
  | some p =>
    obtain ⟨line, rest⟩ := p
    rw [hrs] at h
    simp only at h
    by_cases hlen : (Split (Trim line [CR, LF]) SP).length ≠ 3
    · rw [if_pos hlen] at h; cases h
    · rw [if_neg hlen] at h
      cases hm : V.getMethod ((Split (Trim line [CR, LF]) SP).getD 0 []) with
      | none => rw [hm] at h; cases h
      | some method =>
        rw [hm] at h
        simp only at h
        cases hl : headerLoop [CR, LF] r.tail [] [] rest with
        | fail e => rw [hl] at h; cases h
        | done headers after' =>
          rw [hl] at h
          simp only [Option.some.injEq, Prod.mk.injEq] at h
          obtain ⟨h1, h2⟩ := h
          subst h1 h2
          exact ⟨line, rest, rfl, by simpa using hlen, hm, hl, rfl⟩

/-- What a response head is made of. -/
theorem responseHead_inv {M S : Type} (V : Vocab M S) (r : Stream) (resp : Response S)
    (after : List Byte) (h : responseHead V r = some (resp, after)) :
    ∃ line rest, ReadString r.data = some (line, rest)
      ∧ (Split (Trim line [LF]) SP).length = 3
      ∧ headerLoop [LF] r.tail [] [] rest = .done resp.Headers after
      ∧ resp.Body = [] := by
  unfold responseHead at h
  cases hrs : ReadString r.data with
  | none => rw [hrs] at h; cases h
  | some p =>
    obtain ⟨line, rest⟩ := p
    rw [hrs] at h
    simp only at h
    by_cases hlen : (Split (Trim line [LF]) SP).length ≠ 3
    · rw [if_pos hlen] at h; cases h
    · rw [if_neg hlen] at h
      cases ha : Atoi ((Split (Trim line [LF]) SP).getD 1 []) with
      | errSyntax => rw [ha] at h; cases h
      | errRange c => rw [ha] at h; cases h
      | ok statusNum =>
        rw [ha] at h
        simp only at h
        cases hm : V.getStatus statusNum with
        | none => rw [hm] at h; cases h
        | some status =>
          rw [hm] at h
          simp only at h
          cases hl : headerLoop [LF] r.tail [] [] rest with
          | fail e => rw [hl] at h; cases h
          | done headers after' =>
            rw [hl] at h
            simp only [Option.some.injEq, Prod.mk.injEq] at h
            obtain ⟨h1, h2⟩ := h
            subst h1 h2
            exact ⟨line, rest, rfl, by simpa using hlen, hl, rfl⟩

/-- Without a well-formed head `readRequest` returns no Request. -/
theorem readRequest_of_no_head {M S : Type} (V : Vocab M S) (r : Stream)
    (h : requestHead V r = none) : ∃ e, readRequest V r = .ret none (some e) := by
  unfold requestHead at h
  unfold readRequest
  cases hrs : ReadString r.data with
  | none => exact ⟨_, rfl⟩
  | some p =>
    obtain ⟨line, rest⟩ := p
    rw [hrs] at h
    simp only at h ⊢
    by_cases hlen : (Split (Trim line [CR, LF]) SP).length ≠ 3
    · rw [if_pos hlen]
      exact ⟨_, rfl⟩
    · rw [if_neg hlen] at h ⊢
      cases hm : V.getMethod ((Split (Trim line [CR, LF]) SP).getD 0 []) with
      | none => exact ⟨_, rfl⟩
      | some method =>
        rw [hm] at h
        simp only at h ⊢
        cases hl : headerLoop [CR, LF] r.tail [] [] rest with
        | fail e => exact ⟨_, rfl⟩
        | done headers after' => rw [hl] at h; cases h

/-- Without a well-formed head `readResponse` returns no Response. -/
theorem readResponse_of_no_head {M S : Type} (V : Vocab M S) (r : Stream)
    (h : responseHead V r = none) : ∃ e, readResponse V r = .ret none (some e) := by
  unfold responseHead at h
  unfold readResponse
  cases hrs : ReadString r.data with
  | none => exact ⟨_, rfl⟩
  | some p =>
    obtain ⟨line, rest⟩ := p
    rw [hrs] at h
    simp only at h ⊢
    by_cases hlen : (Split (Trim line [LF]) SP).length ≠ 3
    · rw [if_pos hlen]
      exact ⟨_, rfl⟩
    · rw [if_neg hlen] at h ⊢
      cases ha : Atoi ((Split (Trim line [LF]) SP).getD 1 []) with
      | errSyntax => exact ⟨_, rfl⟩
      | errRange c => exact ⟨_, rfl⟩
      | ok statusNum =>
        rw [ha] at h
        simp only at h ⊢
        cases hm : V.getStatus statusNum with
        | none => exact ⟨_, rfl⟩
        | some status =>
          rw [hm] at h
          simp only at h ⊢
          cases hl : headerLoop [LF] r.tail [] [] rest with
          | fail e => exact ⟨_, rfl⟩
          | done headers after' => rw [hl] at h; cases h

/-- The body step of `readRequest` changes nothing but the body. -/
theorem requestBody_inv {M : Type} (req req' : Request M) (after : List Byte)
    (tail : StreamEnd) (e : Option Err)
    (h : requestBody req after tail = .ret (some req') e) :
    req' = { req with Body := req'.Body } := by
  unfold requestBody at h
  split at h
  · simp only [Outcome.ret.injEq, Option.some.injEq] at h
    rw [← h.1]
  · split at h
    · cases h
    · split at h
      · split at h
        · simp at h
        · simp only [Outcome.ret.injEq, Option.some.injEq] at h
          rw [← h.1]
      · simp only [Outcome.ret.injEq, Option.some.injEq] at h
        rw [← h.1]

/-- The body step of `readResponse` changes nothing but the body. -/
theorem responseBody_inv {S : Type} (resp resp' : Response S) (after : List Byte)
    (tail : StreamEnd) (e : Option Err)
    (h : responseBody resp after tail = .ret (some resp') e) :
    resp' = { resp with Body := resp'.Body } := by
  unfold responseBody at h
  split at h
  · simp only [Outcome.ret.injEq, Option.some.injEq] at h
    rw [← h.1]
  · split at h
    · simp at h
    · simp at h
    · split at h
      · cases h
      · split at h
        · split at h
          · simp only [Outcome.ret.injEq, Option.some.injEq] at h
            rw [← h.1]
          · simp only [Outcome.ret.injEq, Option.some.injEq] at h
            rw [← h.1]
        · simp only [Outcome.ret.injEq, Option.some.injEq] at h
          rw [← h.1]

/-- A Request that `readRequest` returns has the head of a well-formed input. -/
theorem readRequest_ok_inv {M S : Type} (V : Vocab M S) (r : Stream) (req' : Request M)
    (e : Option Err) (h : readRequest V r = .ret (some req') e) :
    ∃ req after, requestHead V r = some (req, after) ∧ req' = { req with Body := req'.Body } := by
  cases hh : requestHead V r with
  | none =>
    obtain ⟨e', he'⟩ := readRequest_of_no_head V r hh
    rw [he'] at h
    cases h
  | some p =>
    obtain ⟨req, after⟩ := p
    rw [readRequest_of_head V r req after hh] at h
    exact ⟨req, after, rfl, requestBody_inv req req' after r.tail e h⟩

/-- A Response that `readResponse` returns has the head of a well-formed input. -/
theorem readResponse_ok_inv {M S : Type} (V : Vocab M S) (r : Stream) (resp' : Response S)
    (e : Option Err) (h : readResponse V r = .ret (some resp') e) :
    ∃ resp after, responseHead V r = some (resp, after)
      ∧ resp' = { resp with Body := resp'.Body } := by
  cases hh : responseHead V r with
  | none =>
    obtain ⟨e', he'⟩ := readResponse_of_no_head V r hh
    rw [he'] at h
    cases h
  | some p =>
    obtain ⟨resp, after⟩ := p
    rw [readResponse_of_head V r resp after hh] at h
    exact ⟨resp, after, rfl, responseBody_inv resp resp' after r.tail e h⟩

/-- A response head read from `a` is read from `a ++ x`, with `x` after the bytes that
follow the blank line. -/
theorem responseHead_append {M S : Type} (V : Vocab M S) (a x : List Byte)
    (tail : StreamEnd) (resp : Response S) (after : List Byte)
    (h : responseHead V { data := a, tail := tail } = some (resp, after)) :
    responseHead V { data := a ++ x, tail := tail } = some (resp, after ++ x) := by
  unfold responseHead at h ⊢
  simp only at h ⊢
  cases hrs : ReadString a with
  | none => rw [hrs] at h; cases h
  | some p =>
    obtain ⟨line, rest⟩ := p
    rw [hrs] at h
    rw [ReadString_append a x line rest hrs]
    simp only at h ⊢
    by_cases hlen : (Split (Trim line [LF]) SP).length ≠ 3
    · rw [if_pos hlen] at h; cases h
    · rw [if_neg hlen] at h ⊢
      cases ha : Atoi ((Split (Trim line [LF]) SP).getD 1 []) with
      | errSyntax => rw [ha] at h; cases h
      | errRange c => rw [ha] at h; cases h
      | ok statusNum =>
        rw [ha] at h
        simp only at h ⊢
        cases hm : V.getStatus statusNum with
        | none => rw [hm] at h; cases h
        | some status =>
          rw [hm] at h
          simp only at h ⊢
          cases hl : headerLoop [LF] tail [] [] rest with
          | fail e => rw [hl] at h; cases h
          | done headers after' =>
            rw [hl] at h
            rw [headerLoop_append [LF] tail rest x [] [] headers after' hl]
            simp only [Option.some.injEq, Prod.mk.injEq] at h ⊢
            obtain ⟨h1, h2⟩ := h
            subst h1 h2
            exact ⟨rfl, rfl⟩

/-! ## No Content-Length, no body (C18) -/

/-- C18: when the first line and header block are well-formed and the headers have no
entry named exactly "Content-Length", `readRequest` and `readResponse` succeed with an
empty body, and the bytes after the blank line play no part: the result is the same
whatever bytes follow. -/
theorem no_content_length_no_body {M S : Type} (V : Vocab M S)
    (r r' : Stream) (req : Request M) (resp : Response S) (after after' : List Byte)
    (hreq : requestHead V r = some (req, after))
    (hreqcl : Headers.get req.Headers contentLengthKey = none)
    (hresp : responseHead V r' = some (resp, after'))
    (hrespcl : Headers.get resp.Headers contentLengthKey = none) :
    readRequest V r = .ret (some req) none ∧ req.Body = []
      ∧ readResponse V r' = .ret (some resp) none ∧ resp.Body = []
      ∧ (∀ x, readRequest V { data := r.data ++ x, tail := r.tail } = .ret (some req) none)
      ∧ (∀ x, readResponse V { data := r'.data ++ x, tail := r'.tail }
          = .ret (some resp) none) := by
  have b1 : ∀ a t, requestBody req a t = .ret (some req) none := by
    intro a t
    unfold requestBody
    simp only [hreqcl]
  have b2 : ∀ a t, responseBody resp a t = .ret (some resp) none := by
    intro a t
    unfold responseBody
    simp only [hrespcl]
  obtain ⟨_, _, _, _, _, _, e1⟩ := requestHead_inv V r req after hreq
  obtain ⟨_, _, _, _, _, e2⟩ := responseHead_inv V r' resp after' hresp
  refine ⟨?_, e1, ?_, e2, ?_, ?_⟩
  · rw [readRequest_of_head V r req after hreq]
    exact b1 _ _
  · rw [readResponse_of_head V r' resp after' hresp]
    exact b2 _ _
  · intro x
    rw [readRequest_of_head V _ req (after ++ x)
      (requestHead_append V r.data x r.tail req after hreq)]
    exact b1 _ _
  · intro x
    rw [readResponse_of_head V _ resp (after' ++ x)
      (responseHead_append V r'.data x r'.tail resp after' hresp)]
    exact b2 _ _

/-- Witness for `no_content_length_no_body`: a request and a response with the single
header CSeq, followed by the bytes "left over". -/
theorem no_content_length_no_body_witness :
    requestHead specVocab (Stream.ofBytes noLengthRequest)
        = some (noLengthRequestHead, ascii "left over")
      ∧ responseHead specVocab (Stream.ofBytes noLengthResponse)
        = some (noLengthResponseHead, ascii "left over")
      ∧ readRequest specVocab (Stream.ofBytes noLengthRequest)
        = .ret (some noLengthRequestHead) none
      ∧ readResponse specVocab (Stream.ofBytes noLengthResponse)
        = .ret (some noLengthResponseHead) none :=
  ⟨by decide, by decide,
   (no_content_length_no_body specVocab (Stream.ofBytes noLengthRequest)
      (Stream.ofBytes noLengthResponse) noLengthRequestHead noLengthResponseHead
      (ascii "left over") (ascii "left over") (by decide) (by decide) (by decide)
      (by decide)).1,
   (no_content_length_no_body specVocab (Stream.ofBytes noLengthRequest)
      (Stream.ofBytes noLengthResponse) noLengthRequestHead noLengthResponseHead
      (ascii "left over") (ascii "left over") (by decide) (by decide) (by decide)
      (by decide)).2.2.1⟩

/-! ## The reason phrase (C19) -/

/-- C19: two response inputs that differ only in the third field of the status line
(the fields free of space and line feed) get the same outcome from `readResponse`,
error value included: the status is resolved from the second field alone. -/
theorem readResponse_ignores_reason_phrase {M S : Type} (V : Vocab M S)
    (proto code phrase phrase' rest : List Byte) (tail : StreamEnd)
    (hproto : plainField proto) (hcode : plainField code)
    (hphrase : plainField phrase) (hphrase' : plainField phrase') :
    readResponse V
        { data := (proto ++ [SP] ++ code ++ [SP] ++ phrase) ++ LF :: rest, tail := tail }
      = readResponse V
        { data := (proto ++ [SP] ++ code ++ [SP] ++ phrase') ++ LF :: rest, tail := tail } := by
  have key : ∀ p, plainField p →
      ReadString ((proto ++ [SP] ++ code ++ [SP] ++ p) ++ LF :: rest)
          = some ((proto ++ [SP] ++ code ++ [SP] ++ p) ++ [LF], rest)
        ∧ Trim ((proto ++ [SP] ++ code ++ [SP] ++ p) ++ [LF]) [LF]
          = proto ++ [SP] ++ code ++ [SP] ++ p
        ∧ Split (proto ++ [SP] ++ code ++ [SP] ++ p) SP = [proto, code, p] := by
    intro p hp
    have hmem : ∀ a ∈ proto ++ [SP] ++ code ++ [SP] ++ p, a ∉ [LF] := by
      intro a ha
      simp only [List.mem_append, List.mem_singleton] at ha
      simp only [List.mem_singleton]
      rcases ha with (((h | h) | h) | h) | h
      · exact fun e => hproto.2 (e ▸ h)
      · subst h; decide
      · exact fun e => hcode.2 (e ▸ h)
      · subst h; decide
      · exact fun e => hp.2 (e ▸ h)
    have hLF : LF ∉ proto ++ [SP] ++ code ++ [SP] ++ p := fun h => hmem LF h (by decide)
    exact ⟨ReadString_line _ _ hLF,
      Trim_line _ _ (by decide) (fun a ha => hmem a (List.mem_of_mem_head? ha))
        (fun a ha => hmem a (List.mem_of_mem_getLast? ha)),
      Split_three proto code p SP hproto.1 hcode.1 hp.1⟩
  obtain ⟨k1, k2, k3⟩ := key phrase hphrase
  obtain ⟨k1', k2', k3'⟩ := key phrase' hphrase'
  unfold readResponse
  simp only [k1, k2, k3, k1', k2', k3']
  rfl

/-- Witness for `readResponse_ignores_reason_phrase`: "200 OK" and "200 Fine". -/
theorem readResponse_ignores_reason_phrase_witness :
    plainField (ascii "OK") ∧ plainField (ascii "Fine")
      ∧ readResponse specVocab (Stream.ofBytes (ascii "RTSP/1.0 200 OK\nCSeq: 1\n\n"))
        = readResponse specVocab (Stream.ofBytes (ascii "RTSP/1.0 200 Fine\nCSeq: 1\n\n")) :=
  ⟨by unfold plainField; decide, by unfold plainField; decide,
   readResponse_ignores_reason_phrase specVocab (ascii "RTSP/1.0") (ascii "200")
     (ascii "OK") (ascii "Fine") (ascii "CSeq: 1\n\n") .eof
     (by unfold plainField; decide) (by unfold plainField; decide)
     (by unfold plainField; decide) (by unfold plainField; decide)⟩

/-! ## Repeated header names (C17) -/

/-- The lookup after an assignment. -/
theorem Headers.get_set (m : Headers) (k v q : List Byte) :
    Headers.get (Headers.set m k v) q = if k = q then some v else Headers.get m q := by
  induction m with
  | nil => simp [Headers.set, Headers.get]
  | cons e m ih =>
    obtain ⟨k', v'⟩ := e
    by_cases hk : k' = k
    · subst hk
      simp only [Headers.set, if_true, Headers.get]
      by_cases hq : k' = q <;> simp [hq]
    · simp only [Headers.set, hk, if_false, Headers.get]
      by_cases hq : k' = q
      · have hkq : ¬ k = q := fun e => hk (hq.trans e.symm)
        simp [hq, hkq]
      · simp only [hq, if_false]
        exact ih

/-- The names of a map after an assignment: those it had, and the name assigned. -/
theorem Headers.mem_keys_set (m : Headers) (k v q : List Byte) :
    q ∈ Headers.keys (Headers.set m k v) ↔ q ∈ Headers.keys m ∨ q = k := by
  induction m with
  | nil => simp [Headers.set, Headers.keys]
  | cons e m ih =>
    obtain ⟨k', v'⟩ := e
    by_cases hk : k' = k
    · subst hk
      simp only [Headers.set, if_true, Headers.keys, List.map_cons, List.mem_cons]
      tauto
    · simp only [Headers.set, hk, if_false, Headers.keys, List.map_cons, List.mem_cons]
      simp only [Headers.keys] at ih
      rw [ih]
      tauto

/-- An assignment keeps the names of a map pairwise different. -/
theorem Headers.nodup_keys_set (m : Headers) (k v : List Byte)
    (h : (Headers.keys m).Nodup) : (Headers.keys (Headers.set m k v)).Nodup := by
  induction m with
  | nil => simp [Headers.set, Headers.keys]
  | cons e m ih =>
    obtain ⟨k', v'⟩ := e
    simp only [Headers.keys, List.map_cons, List.nodup_cons] at h
    by_cases hk : k' = k
    · subst hk
      simp only [Headers.set, if_true, Headers.keys, List.map_cons, List.nodup_cons]
      exact h
    · simp only [Headers.set, hk, if_false, Headers.keys, List.map_cons, List.nodup_cons]
      refine ⟨?_, ih h.2⟩
      intro hmem
      have := (Headers.mem_keys_set m k v k').mp hmem
      rcases this with h1 | h1
      · exact h.1 h1
      · exact hk h1

/-- The lookup in two lists in a row: the first list is searched first. -/
theorem Headers.get_append (a b : Headers) (q : List Byte) :
    Headers.get (a ++ b) q
      = match Headers.get a q with
        | some v => some v
        | none => Headers.get b q := by
  induction a with
  | nil => simp [Headers.get]
  | cons e a ih =>
    obtain ⟨k', v'⟩ := e
    by_cases hq : k' = q
    · simp [Headers.get, hq]
    · simp only [List.cons_append, Headers.get, hq, if_false]
      exact ih

/-- Storing headers one after the other keeps the names pairwise different, and the
value found under a name is that of the last header stored under it, or else the
value the map held before. -/
theorem foldl_set_spec (l m : Headers) (hm : (Headers.keys m).Nodup) :
    (Headers.keys (l.foldl (fun m h => Headers.set m h.1 h.2) m)).Nodup
      ∧ ∀ q, Headers.get (l.foldl (fun m h => Headers.set m h.1 h.2) m) q
          = match lastValue l q with
            | some v => some v
            | none => Headers.get m q := by
  induction l generalizing m with
  | nil => exact ⟨hm, fun q => by simp [lastValue, Headers.get]⟩
  | cons e l ih =>
    obtain ⟨h1, h2⟩ := ih (Headers.set m e.1 e.2) (Headers.nodup_keys_set m e.1 e.2 hm)
    refine ⟨h1, ?_⟩
    intro q
    simp only [List.foldl_cons]
    rw [h2 q, Headers.get_set]
    simp only [lastValue, List.reverse_cons]
    rw [Headers.get_append]
    cases Headers.get l.reverse q with
    | some v => rfl
    | none => by_cases he : e.1 = q <;> simp [Headers.get, he]

/-- The map the header loop returns is the map it started with, with the headers of
the non-blank lines stored one after the other. -/
theorem headerLoop_done_eq (cutset : List Byte) (tail : StreamEnd) (pending : List Byte)
    (hs hs' : Headers) (data rest : List Byte)
    (h : headerLoop cutset tail pending hs data = .done hs' rest) :
    hs' = ((headerFields cutset pending data).map parseHeaderField).foldl
      (fun m h => Headers.set m h.1 h.2) hs := by
  induction data generalizing pending hs with
  | nil => simp [headerLoop] at h
  | cons b bs ih =>
    by_cases hb : b = LF
    · simp only [headerLoop, headerFields, hb, if_true] at h ⊢
      by_cases hblank : Trim (Trim (pending.reverse ++ [LF]) cutset) cutset = []
      · rw [headerStep_stop _ _ _ hblank] at h
        simp only [HeaderLoop.done.injEq] at h
        simp [hblank, h.1]
      · by_cases hcolon : COLON ∈ Trim (pending.reverse ++ [LF]) cutset
        · have h2 : ¬ (Split (Trim (pending.reverse ++ [LF]) cutset) COLON).length < 2 := by
            rw [Split_length_lt_two]
            exact fun hn => hn hcolon
          have hstep : headerStep cutset hs (pending.reverse ++ [LF])
              = .next (Headers.set hs
                  (parseHeaderField (Trim (pending.reverse ++ [LF]) cutset)).1
                  (parseHeaderField (Trim (pending.reverse ++ [LF]) cutset)).2) := by
            unfold headerStep parseHeaderField
            simp only [hblank, if_false, h2]
          rw [hstep] at h
          simp only [hblank, if_false, List.map_cons, List.foldl_cons]
          exact ih [] _ h
        · rw [headerStep_no_colon _ _ _ hblank hcolon] at h
          cases h
    · simp only [headerLoop, headerFields, hb, if_false] at h ⊢
      exact ih (b :: pending) hs h

/-- C17: in the map that `readRequest` or `readResponse` returns, the names are
pairwise different (one entry per name), and the value under a name is that of the
last header line with that name (equal after trimming) in the input; lines with other
names do not matter for it. -/
theorem repeated_header_last_wins {M S : Type} (V : Vocab M S) (r r' : Stream)
    (line rest line' rest' : List Byte) (req : Request M) (resp : Response S)
    (e e' : Option Err)
    (hline : ReadString r.data = some (line, rest))
    (hreq : readRequest V r = .ret (some req) e)
    (hline' : ReadString r'.data = some (line', rest'))
    (hresp : readResponse V r' = .ret (some resp) e') :
    (Headers.keys req.Headers).Nodup
      ∧ (∀ k, Headers.get req.Headers k = lastValue (parsedHeaders [CR, LF] rest) k)
      ∧ (Headers.keys resp.Headers).Nodup
      ∧ (∀ k, Headers.get resp.Headers k = lastValue (parsedHeaders [LF] rest') k) := by
  obtain ⟨req0, after, hh, hEq⟩ := readRequest_ok_inv V r req e hreq
  obtain ⟨l, rs, hl, _, _, hloop, _⟩ := requestHead_inv V r req0 after hh
  rw [hline] at hl
  simp only [Option.some.injEq, Prod.mk.injEq] at hl
  obtain ⟨resp0, after', hh', hEq'⟩ := readResponse_ok_inv V r' resp e' hresp
  obtain ⟨l', rs', hl', _, hloop', _⟩ := responseHead_inv V r' resp0 after' hh'
  rw [hline'] at hl'
  simp only [Option.some.injEq, Prod.mk.injEq] at hl'
  have hH : req.Headers = req0.Headers := by rw [hEq]
  have hH' : resp.Headers = resp0.Headers := by rw [hEq']
  have s1 := foldl_set_spec (parsedHeaders [CR, LF] rest) [] (by simp [Headers.keys])
  have s2 := foldl_set_spec (parsedHeaders [LF] rest') [] (by simp [Headers.keys])
  have q1 := headerLoop_done_eq _ _ _ _ _ _ _ hloop
  have q2 := headerLoop_done_eq _ _ _ _ _ _ _ hloop'
  rw [← hl.2] at q1
  rw [← hl'.2] at q2
  rw [hH, hH', q1, q2]
  refine ⟨s1.1, ?_, s2.1, ?_⟩
  · intro k
    have := s1.2 k
    simp only [parsedHeaders] at this ⊢
    rw [this]
    cases lastValue (List.map parseHeaderField (headerFields [CR, LF] [] rest)) k <;>
      simp [Headers.get]
  · intro k
    have := s2.2 k
    simp only [parsedHeaders] at this ⊢
    rw [this]
    cases lastValue (List.map parseHeaderField (headerFields [LF] [] rest')) k <;>
      simp [Headers.get]

/-- Witness for `repeated_header_last_wins`: the header CSeq comes on two lines, as
"CSeq: 1" and as "CSeq : 2"; the map holds the value "2" for it. -/
theorem repeated_header_last_wins_witness :
    readRequest specVocab (Stream.ofBytes repeatedHeaderRequest)
        = .ret (some repeatedHeaderRequestResult) none
      ∧ readResponse specVocab (Stream.ofBytes repeatedHeaderResponse)
        = .ret (some repeatedHeaderResponseResult) none
      ∧ lastValue (parsedHeaders [CR, LF] (ascii "CSeq: 1\r\nSession: a\r\nCSeq : 2\r\n\r\n"))
          (ascii "CSeq") = some (ascii "2")
      ∧ Headers.get repeatedHeaderRequestResult.Headers (ascii "CSeq")
        = lastValue (parsedHeaders [CR, LF] (ascii "CSeq: 1\r\nSession: a\r\nCSeq : 2\r\n\r\n"))
            (ascii "CSeq") :=
  ⟨by decide, by decide, by decide,
   (repeated_header_last_wins specVocab (Stream.ofBytes repeatedHeaderRequest)
      (Stream.ofBytes repeatedHeaderResponse)
      (ascii "OPTIONS rtsp://x RTSP/1.0\r\n") (ascii "CSeq: 1\r\nSession: a\r\nCSeq : 2\r\n\r\n")
      (ascii "RTSP/1.0 200 OK\n") (ascii "CSeq: 1\nSession: a\nCSeq : 2\n\n")
      repeatedHeaderRequestResult repeatedHeaderResponseResult none none
      (by decide) (by decide) (by decide) (by decide)).2.1 (ascii "CSeq")⟩

/-! ## Trimmed names and values (C20) -/

/-- The first rune of a string is not white space exactly when its first byte is not
an ASCII space and none of the wide white-space runes begins the string. -/
theorem spaceWidth_eq_zero_iff (b : Byte) (t : List Byte) :
    spaceWidth (b :: t) = 0
      ↔ asciiSpace b = false ∧ ∀ w ∈ wideSpaces, w.isPrefixOf (b :: t) = false := by
  have hlen : ∀ w ∈ wideSpaces, w.length ≠ 0 := by decide
  unfold spaceWidth
  by_cases hsp : asciiSpace b = true
  · simp [hsp]
  · have hsp' : asciiSpace b = false := by simpa using hsp
    simp only [hsp', Bool.false_eq_true, if_false, true_and]
    cases hf : wideSpaces.find? (fun w => w.isPrefixOf (b :: t)) with
    | none =>
      simp only [true_iff]
      intro w hw
      have := List.find?_eq_none.mp hf w hw
      cases hb : w.isPrefixOf (b :: t) with
      | false => rfl
      | true => exact absurd hb this
    | some w =>
      have hmem : w ∈ wideSpaces := List.mem_of_find?_eq_some hf
      have hpre : w.isPrefixOf (b :: t) = true :=
        @List.find?_some _ (fun w : List Byte => w.isPrefixOf (b :: t)) w wideSpaces hf
      simp only
      constructor
      · intro h0
        exact absurd h0 (hlen w hmem)
      · intro hall
        rw [hall w hmem] at hpre
        exact Bool.noConfusion hpre

/-- A prefix of a string without leading white space has no leading white space. -/
theorem spaceWidth_of_initial (u t : List Byte) (hpre : u <+: t) (h : spaceWidth t = 0) :
    spaceWidth u = 0 := by
  cases u with
  | nil => rfl
  | cons b u' =>
    cases t with
    | nil => simp at hpre
    | cons c t' =>
      have hbc : b = c := (List.cons_prefix_cons.mp hpre).1
      subst hbc
      rw [spaceWidth_eq_zero_iff] at h ⊢
      refine ⟨h.1, ?_⟩
      intro w hw
      have := h.2 w hw
      by_contra hcon
      have hw' : w.isPrefixOf (b :: u') = true := by simpa using hcon
      rw [List.isPrefixOf_iff_prefix] at hw'
      have : w.isPrefixOf (b :: t') = true := by
        rw [List.isPrefixOf_iff_prefix]
        exact hw'.trans hpre
      rw [h.2 w hw] at this
      exact Bool.noConfusion this

/-- With enough turns, trimming on the left ends without leading white space. -/
theorem spaceWidth_trimLeftSpace (n : Nat) (s : List Byte) (h : s.length ≤ n) :
    spaceWidth (trimLeftSpace n s) = 0 := by
  induction n generalizing s with
  | zero =>
    have : s = [] := List.length_eq_zero.mp (by omega)
    subst this
    rfl
  | succ n ih =>
    rw [trimLeftSpace_succ]
    by_cases hw : spaceWidth s = 0
    · simp [hw]
    · simp only [hw, if_false]
      apply ih
      cases s with
      | nil => exact absurd rfl hw
      | cons b t =>
        rw [List.length_drop]
        simp only [List.length_cons] at h ⊢
        omega

/-- With enough turns, trimming on the right ends without trailing white space. -/
theorem spaceWidthEnd_trimRightSpace (n : Nat) (s : List Byte) (h : s.length ≤ n) :
    spaceWidthEnd (trimRightSpace n s) = 0 := by
  induction n generalizing s with
  | zero =>
    have : s = [] := List.length_eq_zero.mp (by omega)
    subst this
    rfl
  | succ n ih =>
    rw [trimRightSpace_succ]
    by_cases hw : spaceWidthEnd s = 0
    · simp [hw]
    · simp only [hw, if_false]
      apply ih
      cases s with
      | nil => exact absurd rfl hw
      | cons b t =>
        rw [List.length_take]
        simp only [List.length_cons] at h ⊢
        omega

/-- Trimming on the right leaves a prefix of the string. -/
theorem trimRightSpace_initial (n : Nat) (s : List Byte) : trimRightSpace n s <+: s := by
  induction n generalizing s with
  | zero => exact List.prefix_refl _
  | succ n ih =>
    rw [trimRightSpace_succ]
    split
    · exact List.prefix_refl _
    · exact (ih _).trans (List.take_prefix _ _)

/-- Trimming on the left leaves a suffix of the string. -/
theorem trimLeftSpace_suffix (n : Nat) (s : List Byte) : trimLeftSpace n s <:+ s := by
  induction n generalizing s with
  | zero => exact List.suffix_refl _
  | succ n ih =>
    rw [trimLeftSpace_succ]
    split
    · exact List.suffix_refl _
    · exact (ih _).trans (List.drop_suffix _ _)

/-- The result of `TrimSpace` has no leading and no trailing white space. -/
theorem noSurroundingSpace_TrimSpace (s : List Byte) : noSurroundingSpace (TrimSpace s) := by
  unfold noSurroundingSpace TrimSpace
  simp only
  exact ⟨spaceWidth_of_initial _ _ (trimRightSpace_initial _ _)
      (spaceWidth_trimLeftSpace s.length s (le_refl _)),
    spaceWidthEnd_trimRightSpace _ _ (le_refl _)⟩

/-- Every byte of the result of `TrimSpace` is a byte of the string. -/
theorem mem_of_mem_TrimSpace (s : List Byte) (a : Byte) (h : a ∈ TrimSpace s) : a ∈ s := by
  unfold TrimSpace at h
  simp only at h
  exact (trimLeftSpace_suffix s.length s).subset
    ((trimRightSpace_initial _ _).subset h)

/-- No field of a split string holds the separator. -/
theorem not_mem_of_mem_Split (s : List Byte) (sep : Byte) (f : List Byte)
    (h : f ∈ Split s sep) : sep ∉ f := by
  induction s generalizing f with
  | nil =>
    simp only [Split, List.mem_singleton] at h
    subst h
    simp
  | cons b bs ih =>
    unfold Split at h
    by_cases hb : b = sep
    · simp only [hb, if_true, List.mem_cons] at h
      rcases h with h | h
      · subst h; simp
      · exact ih f h
    · simp only [hb, if_false] at h
      cases hs : Split bs sep with
      | nil => exact absurd hs (Split_ne_nil bs sep)
      | cons g gs =>
        rw [hs] at h ih
        simp only [List.mem_cons] at h
        rcases h with h | h
        · subst h
          simp only [List.mem_cons, not_or]
          exact ⟨fun e => hb e.symm, ih g (List.mem_cons_self _ _)⟩
        · exact ih f (List.mem_cons_of_mem _ h)

/-- A field taken from a split string, or the empty default, holds no separator. -/
theorem not_mem_getD_Split (s : List Byte) (sep : Byte) (i : Nat) :
    sep ∉ (Split s sep).getD i [] := by
  by_cases hi : i < (Split s sep).length
  · rw [List.getD_eq_getElem _ _ hi]
    exact not_mem_of_mem_Split s sep _ (List.getElem_mem _)
  · rw [List.getD_eq_default _ _ (by omega)]
    simp

/-- The header a line stands for is tidy. -/
theorem tidyHeader_parseHeaderField (f : List Byte) : tidyHeader (parseHeaderField f) := by
  unfold tidyHeader parseHeaderField
  simp only
  exact ⟨noSurroundingSpace_TrimSpace _,
    fun h => not_mem_getD_Split f COLON 0 (mem_of_mem_TrimSpace _ _ h),
    noSurroundingSpace_TrimSpace _,
    fun h => not_mem_getD_Split f COLON 1 (mem_of_mem_TrimSpace _ _ h)⟩

/-- An entry of a map after an assignment was in the map or is the one assigned. -/
theorem Headers.mem_set (m : Headers) (k v : List Byte) (e : List Byte × List Byte)
    (h : e ∈ Headers.set m k v) : e ∈ m ∨ e = (k, v) := by
  induction m with
  | nil =>
    simp only [Headers.set, List.mem_singleton] at h
    exact Or.inr h
  | cons e' m ih =>
    obtain ⟨k', v'⟩ := e'
    by_cases hk : k' = k
    · simp only [Headers.set, hk, if_true, List.mem_cons] at h ⊢
      rcases h with h | h
      · exact Or.inr h
      · exact Or.inl (Or.inr h)
    · simp only [Headers.set, hk, if_false, List.mem_cons] at h ⊢
      rcases h with h | h
      · exact Or.inl (Or.inl h)
      · rcases ih h with h1 | h1
        · exact Or.inl (Or.inr h1)
        · exact Or.inr h1

/-- An entry of a map after several assignments was in the map or is one of those
assigned. -/
theorem mem_foldl_set (l m : Headers) (e : List Byte × List Byte)
    (h : e ∈ l.foldl (fun m h => Headers.set m h.1 h.2) m) : e ∈ m ∨ e ∈ l := by
  induction l generalizing m with
  | nil => exact Or.inl h
  | cons x l ih =>
    simp only [List.foldl_cons] at h
    rcases ih _ h with h1 | h1
    · rcases Headers.mem_set m x.1 x.2 e h1 with h2 | h2
      · exact Or.inl h2
      · exact Or.inr (by rw [h2]; exact List.mem_cons_self _ _)
    · exact Or.inr (List.mem_cons_of_mem _ h1)

/-- Every header of the map the header loop returns, started on the empty map, is
tidy. -/
theorem headerLoop_tidy (cutset : List Byte) (tail : StreamEnd) (hs : Headers)
    (data rest : List Byte) (h : headerLoop cutset tail [] [] data = .done hs rest) :
    ∀ e ∈ hs, tidyHeader e := by
  intro e he
  rw [headerLoop_done_eq _ _ _ _ _ _ _ h] at he
  rcases mem_foldl_set _ _ e he with h1 | h1
  · simp at h1
  · obtain ⟨f, _, rfl⟩ := List.mem_map.mp h1
    exact tidyHeader_parseHeaderField f

/-- C20: in every message that `readRequest` or `readResponse` returns without error,
every header name and every header value has no leading or trailing white space and
contains no colon. (The map itself is the one made at the start of the call, never
nil.) -/
theorem returned_headers_tidy {M S : Type} (V : Vocab M S) (r r' : Stream)
    (req : Request M) (resp : Response S)
    (hreq : readRequest V r = .ret (some req) none)
    (hresp : readResponse V r' = .ret (some resp) none) :
    (∀ h ∈ req.Headers, tidyHeader h) ∧ (∀ h ∈ resp.Headers, tidyHeader h) := by
  obtain ⟨req0, after, hh, hEq⟩ := readRequest_ok_inv V r req none hreq
  obtain ⟨_, _, _, _, _, hloop, _⟩ := requestHead_inv V r req0 after hh
  obtain ⟨resp0, after', hh', hEq'⟩ := readResponse_ok_inv V r' resp none hresp
  obtain ⟨_, _, _, _, hloop', _⟩ := responseHead_inv V r' resp0 after' hh'
  have hH : req.Headers = req0.Headers := by rw [hEq]
  have hH' : resp.Headers = resp0.Headers := by rw [hEq']
  rw [hH, hH']
  exact ⟨headerLoop_tidy _ _ _ _ _ hloop, headerLoop_tidy _ _ _ _ _ hloop'⟩

/-- Witness for `returned_headers_tidy`: header lines with blanks and tabs around names
and values, and with a value that holds colons. -/
theorem returned_headers_tidy_witness :
    readRequest specVocab (Stream.ofBytes untidyRequest)
        = .ret (some untidyRequestResult) none
      ∧ readResponse specVocab (Stream.ofBytes untidyResponse)
        = .ret (some untidyResponseResult) none
      ∧ (∀ h ∈ untidyRequestResult.Headers, tidyHeader h)
      ∧ (∀ h ∈ untidyResponseResult.Headers, tidyHeader h) :=
  ⟨by decide, by decide,
   (returned_headers_tidy specVocab (Stream.ofBytes untidyRequest)
      (Stream.ofBytes untidyResponse) untidyRequestResult untidyResponseResult
      (by decide) (by decide)).1,
   (returned_headers_tidy specVocab (Stream.ofBytes untidyRequest)
      (Stream.ofBytes untidyResponse) untidyRequestResult untidyResponseResult
      (by decide) (by decide)).2⟩

end Rtsp
